import Mathlib

/-!
Verification development for an F1 live-timing ingestion pipeline.

The pipeline tails an append-only event log, decodes heterogeneous payloads
(plain JSON lines, Python-literal triples, base64 + raw-deflate blobs),
transforms them into domain records (Driver, Session, LapData, Position,
Telemetry, RaceControl, Weather) and loads them into a relational store.

This file gives a shallow embedding of the relevant code paths:
  * `transformer.py`   — `F1DataTransformer` (topic dispatch, per-topic
    handlers, numeric/timestamp parsing, batch deduplication),
  * `loader.py`        — `PostgreSQLLoader._load_lap_data` upsert semantics,
  * `supabase_loader.py` — timestamp handling of the row builders,
  * `extractor.py`     — `F1DataExtractor.get_new_data` file tailing,
  * `main.py`          — `WeatherDataProcessor` (3-element-list ingestion path),
  * `monitor_car_telemetry.py` — `decode_compressed_data`,
    `TelemetryProcessor.process_telemetry_data`, `parse_data_line`.

Python dynamic values are modelled by the inductive `PyVal`; Python exceptions
by `PyErr` together with `Except`.  Machine floats are modelled as exact
rationals (the code only parses, stores and adds decimal literals; no float
rounding is relevant to any claim), except that the CPython `int` → `float`
conversion overflow (`OverflowError` for magnitudes beyond the IEEE-754
double range) is modelled explicitly because the code's `except` clauses do
not catch it.  The deflate codec of `zlib` is not re-implemented; functions
that use it take the codec as an explicit parameter.
-/

deriving instance DecidableEq for Except

namespace F1

/-- Exact-value model of a Python float as an unnormalised fraction.  The
pipeline only parses decimal literals, scales by powers of ten, adds and
compares floats, and every such value and operation is exact in an IEEE-754
sense apart from representation rounding, which no claim depends on; keeping
the fraction unnormalised keeps every computation kernel-reducible.  The
mathematical value of a finite float is `toRat`; `den = 0` encodes the
non-finite values `float("inf")` / `float("nan")` can produce (`num > 0`
positive infinity, `num < 0` negative infinity, `num = 0` nan). -/
structure PyFloat where
  num : Int
  den : Nat
deriving Repr, DecidableEq, Inhabited

namespace PyFloat

/-- Float value of an integer. -/
def ofInt (n : Int) : PyFloat := ⟨n, 1⟩

/-- Exact float addition. -/
def add (a b : PyFloat) : PyFloat :=
  ⟨a.num * (b.den : Int) + b.num * (a.den : Int), a.den * b.den⟩

/-- Float negation. -/
def neg (a : PyFloat) : PyFloat := ⟨-a.num, a.den⟩

/-- Scale down by a power of ten. -/
def divPow10 (a : PyFloat) (k : Nat) : PyFloat := ⟨a.num, a.den * 10 ^ k⟩

/-- Scale up by a power of ten. -/
def mulPow10 (a : PyFloat) (k : Nat) : PyFloat :=
  ⟨a.num * ((10 ^ k : Nat) : Int), a.den⟩

/-- Numeric equality of the represented values (Python `==`), with the
IEEE-754 non-finite conventions: `nan` compares equal to nothing, and an
infinity equals exactly the infinities of the same sign. -/
def eqb (a b : PyFloat) : Bool :=
  if a.den = 0 ∨ b.den = 0 then
    decide (a.den = 0) && decide (b.den = 0) && decide (a.num ≠ 0) &&
      decide (b.num ≠ 0) && (decide (0 < a.num) == decide (0 < b.num))
  else a.num * (b.den : Int) == b.num * (a.den : Int)

/-- The represented rational value. -/
def toRat (a : PyFloat) : Rat := mkRat a.num a.den

/-- Truncation toward zero (Python `int(float)`). -/
def trunc (a : PyFloat) : Int :=
  if a.num ≥ 0 then (a.num.toNat / a.den : Nat)
  else -((((-a.num).toNat / a.den : Nat) : Int))

end PyFloat

/-- Model of a Python dynamic value as produced by `json.loads` /
`ast.literal_eval` and passed around the pipeline.  Dictionary values are
association lists in insertion order with unique keys (Python dicts preserve
insertion order and cannot hold duplicate keys); floats carry their exact
value as an unnormalised fraction. -/
inductive PyVal where
  | none
  | bool (b : Bool)
  | int (n : Int)
  | float (q : PyFloat)
  | str (s : String)
  | list (xs : List PyVal)
  | dict (kvs : List (String × PyVal))
deriving Repr, Inhabited

/-- Model of the Python exception classes that the embedded code raises or
catches.  Only the class identity matters for control flow. -/
inductive PyErr where
  | valueError
  | typeError
  | overflowError
  | attributeError
  | keyError
  | indexError
  | jsonDecodeError
  | literalEvalError
  | binasciiError
  | zlibError
  | unicodeDecodeError
deriving Repr, DecidableEq, Inhabited

mutual

/-- Structural decidable equality for `PyVal`, written out by hand since
the nested inductive blocks automatic derivation. -/
def pyValDecEq : (a b : PyVal) → Decidable (a = b)
  | .none, .none => .isTrue rfl
  | .none, .bool _ => .isFalse (fun h => PyVal.noConfusion h)
  | .none, .int _ => .isFalse (fun h => PyVal.noConfusion h)
  | .none, .float _ => .isFalse (fun h => PyVal.noConfusion h)
  | .none, .str _ => .isFalse (fun h => PyVal.noConfusion h)
  | .none, .list _ => .isFalse (fun h => PyVal.noConfusion h)
  | .none, .dict _ => .isFalse (fun h => PyVal.noConfusion h)
  | .bool _, .none => .isFalse (fun h => PyVal.noConfusion h)
  | .bool x, .bool y =>
      match decEq x y with
      | .isTrue h => .isTrue (congrArg PyVal.bool h)
      | .isFalse h => .isFalse (fun hh => h (PyVal.bool.inj hh))
  | .bool _, .int _ => .isFalse (fun h => PyVal.noConfusion h)
  | .bool _, .float _ => .isFalse (fun h => PyVal.noConfusion h)
  | .bool _, .str _ => .isFalse (fun h => PyVal.noConfusion h)
  | .bool _, .list _ => .isFalse (fun h => PyVal.noConfusion h)
  | .bool _, .dict _ => .isFalse (fun h => PyVal.noConfusion h)
  | .int _, .none => .isFalse (fun h => PyVal.noConfusion h)
  | .int _, .bool _ => .isFalse (fun h => PyVal.noConfusion h)
  | .int x, .int y =>
      match decEq x y with
      | .isTrue h => .isTrue (congrArg PyVal.int h)
      | .isFalse h => .isFalse (fun hh => h (PyVal.int.inj hh))
  | .int _, .float _ => .isFalse (fun h => PyVal.noConfusion h)
  | .int _, .str _ => .isFalse (fun h => PyVal.noConfusion h)
  | .int _, .list _ => .isFalse (fun h => PyVal.noConfusion h)
  | .int _, .dict _ => .isFalse (fun h => PyVal.noConfusion h)
  | .float _, .none => .isFalse (fun h => PyVal.noConfusion h)
  | .float _, .bool _ => .isFalse (fun h => PyVal.noConfusion h)
  | .float _, .int _ => .isFalse (fun h => PyVal.noConfusion h)
  | .float x, .float y =>
      match decEq x y with
      | .isTrue h => .isTrue (congrArg PyVal.float h)
      | .isFalse h => .isFalse (fun hh => h (PyVal.float.inj hh))
  | .float _, .str _ => .isFalse (fun h => PyVal.noConfusion h)
  | .float _, .list _ => .isFalse (fun h => PyVal.noConfusion h)
  | .float _, .dict _ => .isFalse (fun h => PyVal.noConfusion h)
  | .str _, .none => .isFalse (fun h => PyVal.noConfusion h)
  | .str _, .bool _ => .isFalse (fun h => PyVal.noConfusion h)
  | .str _, .int _ => .isFalse (fun h => PyVal.noConfusion h)
  | .str _, .float _ => .isFalse (fun h => PyVal.noConfusion h)
  | .str x, .str y =>
      match decEq x y with
      | .isTrue h => .isTrue (congrArg PyVal.str h)
      | .isFalse h => .isFalse (fun hh => h (PyVal.str.inj hh))
  | .str _, .list _ => .isFalse (fun h => PyVal.noConfusion h)
  | .str _, .dict _ => .isFalse (fun h => PyVal.noConfusion h)
  | .list _, .none => .isFalse (fun h => PyVal.noConfusion h)
  | .list _, .bool _ => .isFalse (fun h => PyVal.noConfusion h)
  | .list _, .int _ => .isFalse (fun h => PyVal.noConfusion h)
  | .list _, .float _ => .isFalse (fun h => PyVal.noConfusion h)
  | .list _, .str _ => .isFalse (fun h => PyVal.noConfusion h)
  | .list x, .list y =>
      match pyValListDecEq x y with
      | .isTrue h => .isTrue (congrArg PyVal.list h)
      | .isFalse h => .isFalse (fun hh => h (PyVal.list.inj hh))
  | .list _, .dict _ => .isFalse (fun h => PyVal.noConfusion h)
  | .dict _, .none => .isFalse (fun h => PyVal.noConfusion h)
  | .dict _, .bool _ => .isFalse (fun h => PyVal.noConfusion h)
  | .dict _, .int _ => .isFalse (fun h => PyVal.noConfusion h)
  | .dict _, .float _ => .isFalse (fun h => PyVal.noConfusion h)
  | .dict _, .str _ => .isFalse (fun h => PyVal.noConfusion h)
  | .dict _, .list _ => .isFalse (fun h => PyVal.noConfusion h)
  | .dict x, .dict y =>
      match pyValPairsDecEq x y with
      | .isTrue h => .isTrue (congrArg PyVal.dict h)
      | .isFalse h => .isFalse (fun hh => h (PyVal.dict.inj hh))

/-- Decidable equality for lists of `PyVal`. -/
def pyValListDecEq : (a b : List PyVal) → Decidable (a = b)
  | [], [] => .isTrue rfl
  | [], _ :: _ => .isFalse (fun h => List.noConfusion h)
  | _ :: _, [] => .isFalse (fun h => List.noConfusion h)
  | x :: xs, y :: ys =>
      match pyValDecEq x y, pyValListDecEq xs ys with
      | .isTrue h1, .isTrue h2 => .isTrue (by rw [h1, h2])
      | .isFalse h1, _ => .isFalse (fun h => h1 (List.cons.inj h).1)
      | _, .isFalse h2 => .isFalse (fun h => h2 (List.cons.inj h).2)

/-- Decidable equality for dict entry lists. -/
def pyValPairsDecEq : (a b : List (String × PyVal)) → Decidable (a = b)
  | [], [] => .isTrue rfl
  | [], _ :: _ => .isFalse (fun h => List.noConfusion h)
  | _ :: _, [] => .isFalse (fun h => List.noConfusion h)
  | (k, v) :: xs, (l, w) :: ys =>
      match decEq k l, pyValDecEq v w, pyValPairsDecEq xs ys with
      | .isTrue h1, .isTrue h2, .isTrue h3 => .isTrue (by rw [h1, h2, h3])
      | .isFalse h1, _, _ =>
          .isFalse (fun h => h1 (congrArg Prod.fst (List.cons.inj h).1))
      | _, .isFalse h2, _ =>
          .isFalse (fun h => h2 (congrArg Prod.snd (List.cons.inj h).1))
      | _, _, .isFalse h3 => .isFalse (fun h => h3 (List.cons.inj h).2)

end

instance : DecidableEq PyVal := pyValDecEq

/-- Python truthiness (`bool(v)`): `None`, `False`, zero, empty string, empty
list and empty dict are falsy; everything else is truthy. -/
def pyTruthy : PyVal → Bool
  | .none => false
  | .bool b => b
  | .int n => decide (n ≠ 0)
  | .float q => decide (q.num ≠ 0)
  | .str s => decide (s ≠ "")
  | .list xs => !xs.isEmpty
  | .dict kvs => !kvs.isEmpty

/-- First-occurrence lookup in an association list; models `dict[k]` /
`dict.get(k)` on dictionaries, whose keys are unique. -/
def dictGet? (kvs : List (String × PyVal)) (key : String) : Option PyVal :=
  match kvs.find? (fun kv => kv.1 = key) with
  | Option.none => Option.none
  | some kv => some kv.2

/-- Insertion into a dict model: an existing key is updated in place (its
position is preserved), a new key is appended.  This is exactly Python dict
assignment, and is how the JSON / literal parsers build objects, so duplicate
keys in the source text resolve last-write-wins as in CPython. -/
def dictInsert (kvs : List (String × PyVal)) (key : String) (v : PyVal) :
    List (String × PyVal) :=
  if kvs.any (fun kv => kv.1 = key) then
    kvs.map (fun kv => if kv.1 = key then (key, v) else kv)
  else
    kvs ++ [(key, v)]

mutual

/-- Python `==` on the modelled values.  Numeric values (`bool` is an `int`
subclass) compare by numeric value across `bool`/`int`/`float`; strings by
content; containers elementwise.  Dict comparison in this model is
order-sensitive, which agrees with CPython on all comparisons the embedded
code performs (they are all string comparisons of topic names). -/
def pyEqb : PyVal → PyVal → Bool
  | .none, .none => true
  | .bool a, .bool b => a == b
  | .bool a, .int n => (if a then (1 : Int) else 0) == n
  | .int n, .bool a => n == (if a then (1 : Int) else 0)
  | .bool a, .float q => PyFloat.eqb (.ofInt (if a then 1 else 0)) q
  | .float q, .bool a => PyFloat.eqb q (.ofInt (if a then 1 else 0))
  | .int n, .int m => n == m
  | .int n, .float q => PyFloat.eqb (.ofInt n) q
  | .float q, .int n => PyFloat.eqb q (.ofInt n)
  | .float p, .float q => PyFloat.eqb p q
  | .str a, .str b => a == b
  | .list xs, .list ys => pyEqbList xs ys
  | .dict xs, .dict ys => pyEqbDict xs ys
  | _, _ => false

/-- Elementwise Python `==` on lists. -/
def pyEqbList : List PyVal → List PyVal → Bool
  | [], [] => true
  | x :: xs, y :: ys => pyEqb x y && pyEqbList xs ys
  | _, _ => false

/-- Pairwise Python `==` on dict entry lists. -/
def pyEqbDict : List (String × PyVal) → List (String × PyVal) → Bool
  | [], [] => true
  | (k, v) :: xs, (l, w) :: ys => k == l && pyEqb v w && pyEqbDict xs ys
  | _, _ => false

end

/-- Surrounding-whitespace strip on a character list (Python `str.strip()`;
`String.trim` itself is avoided as its byte-position recursion does not
kernel-reduce). -/
def trimChars (cs : List Char) : List Char :=
  ((cs.dropWhile Char.isWhitespace).reverse.dropWhile Char.isWhitespace).reverse

/-- Python `int(s)` on a string: optional surrounding whitespace, optional
sign, one or more decimal digits (digit-group underscores are not modelled;
no claim involves them).  `none` models `ValueError`. -/
def pyIntOfStr (s : String) : Option Int :=
  let cs := trimChars s.data
  let core : List Char → Option Nat := fun ds =>
    if ds ≠ [] ∧ ds.all Char.isDigit then
      some (ds.foldl (fun a c => a * 10 + (c.toNat - 48)) 0)
    else Option.none
  match cs with
  | '+' :: rest => (core rest).map (fun n => (n : Int))
  | '-' :: rest => (core rest).map (fun n => -(n : Int))
  | rest => (core rest).map (fun n => (n : Int))

/-- Value of a digit run as a natural number. -/
def digitsVal (ds : List Char) : Nat :=
  ds.foldl (fun a c => a * 10 + (c.toNat - 48)) 0

/-- Exact value of an integer-part/fraction-part digit pair, e.g.
`("23", "5") ↦ 235/10`. -/
def floatOfParts (ip fp : List Char) : PyFloat :=
  ⟨(digitsVal ip * 10 ^ fp.length + digitsVal fp : Nat), 10 ^ fp.length⟩

/-- Python `float(s)` on a string: optional surrounding whitespace, optional
sign, then the case-insensitive non-finite literals `inf` / `infinity` /
`nan` (giving the `den = 0` encodings), or `digits`, `digits.digits`,
`digits.`, or `.digits`, with an optional decimal exponent.  Finite values
are exact.  `none` models `ValueError`. -/
def pyFloatOfStr (s : String) : Option PyFloat :=
  let cs := trimChars s.data
  let readSign : List Char → (Bool × List Char) := fun l =>
    match l with
    | '+' :: rest => (false, rest)
    | '-' :: rest => (true, rest)
    | rest => (false, rest)
  let (neg, cs) := readSign cs
  if cs.map Char.toLower = "inf".data ∨ cs.map Char.toLower = "infinity".data then
    some ⟨if neg then -1 else 1, 0⟩
  else if cs.map Char.toLower = "nan".data then some ⟨0, 0⟩
  else
  let ip := cs.takeWhile Char.isDigit
  let cs₁ := cs.drop ip.length
  let (fp, cs₂) :=
    match cs₁ with
    | '.' :: rest =>
        let fp := rest.takeWhile Char.isDigit
        (fp, rest.drop fp.length)
    | _ => ([], cs₁)
  if ip = [] ∧ fp = [] then Option.none
  else
    let mant := floatOfParts ip fp
    let finish : PyFloat → Option PyFloat :=
      fun q => some (if neg then q.neg else q)
    match cs₂ with
    | [] => finish mant
    | e :: rest =>
        if e = 'e' ∨ e = 'E' then
          let (eneg, rest) := readSign rest
          let ed := rest.takeWhile Char.isDigit
          if ed = [] ∨ rest.drop ed.length ≠ [] then Option.none
          else
            finish (if eneg then mant.divPow10 (digitsVal ed)
                    else mant.mulPow10 (digitsVal ed))
        else Option.none

/-- Least integer magnitude on which CPython `float(int)` raises
`OverflowError`: round-to-nearest sends every integer at or above
`2 ^ 1024 - 2 ^ 970` beyond the largest double `2 ^ 1024 - 2 ^ 971`, and
every integer below it to a finite double, so `float` overflows exactly
from here upward.  Written as the decimal literal of `2 ^ 1024 - 2 ^ 970`
so the comparison kernel-reduces. -/
def floatOverflowBound : Nat := 179769313486231580793728971405303415079934132710037826936173778980444968292764750946649017977587207096330286416692887910946555547851940402630657488671505820681908902000708383676273854845817711531764475730270069855571366959622842914819860834936475292719074168444365510704342711559699508093042880177904174497792

/-- Python `float(v)`: identity on floats, exact conversion of small ints,
`OverflowError` for ints beyond the double range, bool to 0/1, string via
`pyFloatOfStr` (`ValueError` on failure), `TypeError` otherwise. -/
def pyFloatOf : PyVal → Except PyErr PyFloat
  | .float q => .ok q
  | .int n =>
      if n.natAbs ≥ floatOverflowBound then .error .overflowError
      else .ok (.ofInt n)
  | .bool b => .ok (.ofInt (if b then 1 else 0))
  | .str s =>
      match pyFloatOfStr s with
      | some q => .ok q
      | Option.none => .error .valueError
  | .none => .error .typeError
  | .list _ => .error .typeError
  | .dict _ => .error .typeError

/-- Python `int(v)`: identity on ints (never an overflow, however large),
truncation toward zero on finite floats, `OverflowError` on the infinities
(`int(float("inf"))` raises it, uncaught by the `except (ValueError,
TypeError)` clauses of the parsers), `ValueError` on `nan`, bool to 0/1,
string via `pyIntOfStr` (`ValueError` on failure), `TypeError` otherwise. -/
def pyIntOf : PyVal → Except PyErr Int
  | .int n => .ok n
  | .float q =>
      if q.den = 0 then
        if q.num = 0 then .error .valueError else .error .overflowError
      else .ok q.trunc
  | .bool b => .ok (if b then 1 else 0)
  | .str s =>
      match pyIntOfStr s with
      | some n => .ok n
      | Option.none => .error .valueError
  | .none => .error .typeError
  | .list _ => .error .typeError
  | .dict _ => .error .typeError

/-- Python `v.get(key, default)`: dictionary lookup with default, or
`AttributeError` when `v` is not a dict. -/
def pyGetDefault (v : PyVal) (key : String) (dflt : PyVal) : Except PyErr PyVal :=
  match v with
  | .dict kvs => .ok ((dictGet? kvs key).getD dflt)
  | _ => .error .attributeError

/-- Model of a Python `datetime.datetime`.  `tzOffsetMinutes = none` models a
naive datetime, `some o` models an aware one with a fixed UTC offset of `o`
minutes (the only timezones the pipeline ever constructs). -/
structure Datetime where
  year : Nat
  month : Nat
  day : Nat
  hour : Nat
  minute : Nat
  second : Nat
  microsecond : Nat
  tzOffsetMinutes : Option Int
deriving Repr, DecidableEq, Inhabited

/-- Read exactly `n` decimal digits from the front of a character list. -/
def readDigits (n : Nat) (cs : List Char) : Option (Nat × List Char) :=
  let ds := cs.take n
  if ds.length = n ∧ ds.all Char.isDigit then some (digitsVal ds, cs.drop n)
  else Option.none

/-- Expect a specific character at the front of a character list. -/
def expectChar (c : Char) (cs : List Char) : Option (List Char) :=
  match cs with
  | d :: rest => if d = c then some rest else Option.none
  | [] => Option.none

/-- Parse the optional time-of-day and UTC-offset tail of an ISO-8601 string:
`HH:MM[:SS[.f{1..6}]]` followed by nothing, `Z`, or `±HH:MM`. -/
def parseIsoTail (cs : List Char) :
    Option (Nat × Nat × Nat × Nat × Option Int) := do
  let (hh, cs) ← readDigits 2 cs
  let cs ← expectChar ':' cs
  let (mi, cs) ← readDigits 2 cs
  if hh ≥ 24 ∨ mi ≥ 60 then failure
  let (ss, us, cs) ←
    match expectChar ':' cs with
    | Option.none => pure (0, 0, cs)
    | some cs => do
        let (ss, cs) ← readDigits 2 cs
        if ss ≥ 60 then failure
        match expectChar '.' cs with
        | Option.none => pure (ss, 0, cs)
        | some cs => do
            let fs := cs.takeWhile Char.isDigit
            if fs.length = 0 ∨ fs.length > 6 then failure
            pure (ss, digitsVal fs * 10 ^ (6 - fs.length), cs.drop fs.length)
  match cs with
  | [] => pure (hh, mi, ss, us, Option.none)
  | ['Z'] => pure (hh, mi, ss, us, some 0)
  | sgn :: rest =>
      if sgn = '+' ∨ sgn = '-' then do
        let (oh, rest) ← readDigits 2 rest
        let rest ← expectChar ':' rest
        let (om, rest) ← readDigits 2 rest
        if rest ≠ [] ∨ oh ≥ 24 ∨ om ≥ 60 then failure
        let off : Int := (oh * 60 + om : Nat)
        pure (hh, mi, ss, us, some (if sgn = '-' then -off else off))
      else failure

/-- Model of `datetime.fromisoformat` (Python ≥ 3.11 semantics: a trailing
`Z` is accepted as UTC) for the grammar fragment the feed uses:
`YYYY-MM-DD[(T| )HH:MM[:SS[.ffffff]]][Z|±HH:MM]`.  Day-of-month is range
checked against 1..31 (full calendar validation is irrelevant to every
claim).  Failure models `ValueError`. -/
def fromisoformat (s : String) : Except PyErr Datetime :=
  let result : Option Datetime := do
    let cs := s.data
    let (y, cs) ← readDigits 4 cs
    let cs ← expectChar '-' cs
    let (mo, cs) ← readDigits 2 cs
    let cs ← expectChar '-' cs
    let (d, cs) ← readDigits 2 cs
    if mo = 0 ∨ mo > 12 ∨ d = 0 ∨ d > 31 then failure
    match cs with
    | [] => pure (Datetime.mk y mo d 0 0 0 0 Option.none)
    | sep :: rest =>
        if sep = 'T' ∨ sep = ' ' then do
          let (hh, mi, ss, us, off) ← parseIsoTail rest
          pure (Datetime.mk y mo d hh mi ss us off)
        else failure
  match result with
  | some dt => .ok dt
  | Option.none => .error .valueError

/-- Python `dt.replace(tzinfo=None)`: drop the zone information, keeping the
clock fields unchanged. -/
def replaceTzNone (dt : Datetime) : Datetime :=
  { dt with tzOffsetMinutes := Option.none }

/-- Whitespace characters skipped between structured-value tokens. -/
def isWsChar (c : Char) : Bool :=
  c = ' ' ∨ c = '\t' ∨ c = '\n' ∨ c = '\r'

/-- Skip leading whitespace. -/
def skipWs : List Char → List Char
  | [] => []
  | c :: rest => if isWsChar c then skipWs rest else c :: rest

/-- Parser mode: `false` parses JSON (`json.loads`: literals `true`, `false`,
`null`, double-quoted strings), `true` parses Python literals
(`ast.literal_eval`: literals `True`, `False`, `None`, single- or
double-quoted strings). -/
abbrev PyMode := Bool

/-- Read the characters of a quoted string body up to the closing quote `q`,
resolving the escape sequences the printer can emit plus the common
single-character escapes.  Returns the decoded characters and the input
remaining after the closing quote. -/
def parseStrBody (q : Char) : Nat → List Char → Option (List Char × List Char)
  | 0, _ => Option.none
  | _ + 1, [] => Option.none
  | fuel + 1, c :: rest =>
    if c = q then some ([], rest)
    else if c = '\\' then
      match rest with
      | [] => Option.none
      | e :: rest' => do
          let dec ←
            if e = '\\' ∨ e = '/' ∨ e = '\'' ∨ e = '"' then some e
            else if e = 'n' then some '\n'
            else if e = 't' then some '\t'
            else if e = 'r' then some '\r'
            else Option.none
          let (tl, rem) ← parseStrBody q fuel rest'
          some (dec :: tl, rem)
    else do
      let (tl, rem) ← parseStrBody q fuel rest
      some (c :: tl, rem)

/-- Read an unsigned JSON-style number: digits, optional fraction, optional
exponent.  Returns its exact value (an `int` when it has neither fraction nor
exponent, a `float` otherwise, as in `json.loads` / `ast.literal_eval`). -/
def parseNumberBody (cs : List Char) : Option (PyVal × List Char) :=
  let ip := cs.takeWhile Char.isDigit
  if ip = [] then Option.none
  else
    let cs₁ := cs.drop ip.length
    let (fp, cs₂, isFloat) :=
      match cs₁ with
      | '.' :: rest =>
          let fp := rest.takeWhile Char.isDigit
          (fp, rest.drop fp.length, true)
      | _ => ([], cs₁, false)
    if isFloat ∧ fp = [] then Option.none
    else
      let mant := floatOfParts ip fp
      match cs₂ with
      | e :: rest =>
          if e = 'e' ∨ e = 'E' then
            let (eneg, rest') :=
              match rest with
              | '+' :: r => (false, r)
              | '-' :: r => (true, r)
              | r => (false, r)
            let ed := rest'.takeWhile Char.isDigit
            if ed = [] then Option.none
            else
              some (.float (if eneg then mant.divPow10 (digitsVal ed)
                            else mant.mulPow10 (digitsVal ed)),
                    rest'.drop ed.length)
          else if isFloat then some (.float mant, cs₂)
          else some (.int (digitsVal ip : Int), cs₂)
      | [] =>
          if isFloat then some (.float mant, cs₂)
          else some (.int (digitsVal ip : Int), cs₂)

mutual

/-- Recursive-descent reader for one structured value (JSON or Python-literal
surface form according to `mode`), fuelled to make termination structural.
Returns the value and the unconsumed input. -/
def parseVal (mode : PyMode) : Nat → List Char → Option (PyVal × List Char)
  | 0, _ => Option.none
  | fuel + 1, cs =>
    match skipWs cs with
    | [] => Option.none
    | c :: rest =>
      if c = '{' then parseMembers mode fuel (skipWs rest) [] true
      else if c = '[' then parseElems mode fuel (skipWs rest) [] true
      else if c = '"' then do
        let (body, rem) ← parseStrBody '"' (rest.length + 1) rest
        some (.str (String.mk body), rem)
      else if mode ∧ c = '\'' then do
        let (body, rem) ← parseStrBody '\'' (rest.length + 1) rest
        some (.str (String.mk body), rem)
      else if c = '-' then do
        let (v, rem) ← parseNumberBody rest
        let negated ←
          match v with
          | .int n => some (PyVal.int (-n))
          | .float q => some (PyVal.float q.neg)
          | _ => Option.none
        some (negated, rem)
      else if mode then
        if (c :: rest).take 4 = "True".data then some (.bool true, rest.drop 3)
        else if (c :: rest).take 5 = "False".data then some (.bool false, rest.drop 4)
        else if (c :: rest).take 4 = "None".data then some (.none, rest.drop 3)
        else parseNumberBody (c :: rest)
      else
        if (c :: rest).take 4 = "true".data then some (.bool true, rest.drop 3)
        else if (c :: rest).take 5 = "false".data then some (.bool false, rest.drop 4)
        else if (c :: rest).take 4 = "null".data then some (.none, rest.drop 3)
        else parseNumberBody (c :: rest)

/-- Read the members of an object after `{`, accumulating into a dict model
via `dictInsert` (duplicate keys resolve last-write-wins as in CPython).
`first` is true before the first member. -/
def parseMembers (mode : PyMode) : Nat → List Char →
    List (String × PyVal) → Bool → Option (PyVal × List Char)
  | 0, _, _, _ => Option.none
  | _ + 1, [], _, _ => Option.none
  | fuel + 1, c :: rest, acc, first =>
    if c = '}' ∧ first then some (.dict acc, rest)
    else do
      let (key, cs) ←
        match skipWs (c :: rest) with
        | '"' :: body => parseStrBody '"' (body.length + 1) body
        | '\'' :: body => if mode then parseStrBody '\'' (body.length + 1) body
                          else Option.none
        | _ => Option.none
      match skipWs cs with
      | ':' :: cs => do
          let (v, cs) ← parseVal mode fuel cs
          let acc := dictInsert acc (String.mk key) v
          match skipWs cs with
          | ',' :: cs => parseMembers mode fuel (skipWs cs) acc false
          | '}' :: cs => some (.dict acc, cs)
          | _ => Option.none
      | _ => Option.none

/-- Read the elements of an array after `[`.  `first` is true before the
first element. -/
def parseElems (mode : PyMode) : Nat → List Char →
    List PyVal → Bool → Option (PyVal × List Char)
  | 0, _, _, _ => Option.none
  | _ + 1, [], _, _ => Option.none
  | fuel + 1, c :: rest, acc, first =>
    if c = ']' ∧ first then some (.list acc.reverse, rest)
    else do
      let (v, cs) ← parseVal mode fuel (c :: rest)
      match skipWs cs with
      | ',' :: cs => parseElems mode fuel (skipWs cs) (v :: acc) false
      | ']' :: cs => some (.list (v :: acc).reverse, cs)
      | _ => Option.none

end

/-- Model of `json.loads` on a string: parse one JSON value and require only
whitespace to remain.  Failure models `json.JSONDecodeError` (a `ValueError`
subclass). -/
def jsonLoads (s : String) : Except PyErr PyVal :=
  match parseVal false (s.length + 1) s.data with
  | some (v, rest) =>
      if skipWs rest = [] then .ok v else .error .jsonDecodeError
  | Option.none => .error .jsonDecodeError

/-- Model of `ast.literal_eval` on a string, for the literal fragment the
feed uses (strings, numbers, `True`/`False`/`None`, lists, dicts).  Failure
models the `ValueError`/`SyntaxError` raised on malformed input. -/
def literalEval (s : String) : Except PyErr PyVal :=
  match parseVal true (s.length + 1) s.data with
  | some (v, rest) =>
      if skipWs rest = [] then .ok v else .error .literalEvalError
  | Option.none => .error .literalEvalError

/-- Decimal digit character for a digit value. -/
def digitChar : Nat → Char
  | 0 => '0' | 1 => '1' | 2 => '2' | 3 => '3' | 4 => '4'
  | 5 => '5' | 6 => '6' | 7 => '7' | 8 => '8' | _ => '9'

/-- Decimal digit characters of a natural number, most significant first
(fuelled by the number itself; `natDigits` supplies enough fuel). -/
def natDigitsAux : Nat → Nat → List Char
  | 0, _ => []
  | fuel + 1, n =>
      if n < 10 then [digitChar n]
      else natDigitsAux fuel (n / 10) ++ [digitChar (n % 10)]

/-- Decimal representation of a natural number, e.g. `0 ↦ "0"`, `42 ↦ "42"`. -/
def natDigits (n : Nat) : List Char := natDigitsAux (n + 1) n

/-- JSON string escaping as the compact encoder emits it: only `"` and `\`
are escaped (every claim-relevant string is printable ASCII). -/
def escapeChars : List Char → List Char
  | [] => []
  | c :: rest =>
      if c = '"' ∨ c = '\\' then '\\' :: c :: escapeChars rest
      else c :: escapeChars rest

/-- Printed form of a JSON string literal, quotes included. -/
def printStr (s : String) : List Char := '"' :: (escapeChars s.data ++ ['"'])

mutual

/-- Compact JSON encoder, modelling `json.dumps(v, separators=(",", ":"))`.
Floats are outside the printable fragment of this model (the round-trip
well-formedness predicate `jsonWF` excludes them); for totality they print
as `0`. -/
def printVal : PyVal → List Char
  | .none => "null".data
  | .bool true => "true".data
  | .bool false => "false".data
  | .int n => if n < 0 then '-' :: natDigits n.natAbs else natDigits n.natAbs
  | .float _ => ['0']
  | .str s => printStr s
  | .list [] => ['[', ']']
  | .list (x :: xs) => '[' :: (printVal x ++ printTail xs ++ [']'])
  | .dict [] => ['\x7b', '\x7d']
  | .dict (kv :: kvs) =>
      '\x7b' :: (printStr kv.1 ++ ':' :: printVal kv.2 ++ printPairsTail kvs ++ ['\x7d'])

/-- Comma-separated tail of a printed array. -/
def printTail : List PyVal → List Char
  | [] => []
  | x :: xs => ',' :: (printVal x ++ printTail xs)

/-- Comma-separated tail of a printed object. -/
def printPairsTail : List (String × PyVal) → List Char
  | [] => []
  | kv :: kvs => ',' :: (printStr kv.1 ++ ':' :: printVal kv.2 ++ printPairsTail kvs)

end

/-- The compact JSON text of a value, as a string. -/
def jsonDumps (v : PyVal) : String := String.mk (printVal v)

/-- Printable-ASCII check for the characters of a modelled string: at or
above the space character and strictly below 128.  Such strings UTF-8-encode
one byte per character and need no `\u` escapes. -/
def strOk (s : String) : Bool :=
  s.data.all (fun c => 32 ≤ c.toNat ∧ c.toNat < 128)

/-- Key list of a dict model holds pairwise distinct keys. -/
def keysFresh : List (String × PyVal) → Bool
  | [] => true
  | kv :: kvs => !(kvs.any (fun kv2 => kv2.1 = kv.1)) && keysFresh kvs

mutual

/-- Well-formed values for the encode/decode round trip: no floats (the
modelled feed compresses JSON whose numbers are integers; float text
representation is a property of IEEE-754 `repr`, outside this embedding),
printable-ASCII strings, and dicts with distinct keys (true of every Python
dict). -/
def jsonWF : PyVal → Bool
  | .none => true
  | .bool _ => true
  | .int _ => true
  | .float _ => false
  | .str s => strOk s
  | .list xs => jsonWFList xs
  | .dict kvs => keysFresh kvs && kvs.all (fun kv => strOk kv.1) && jsonWFDict kvs

/-- Well-formedness of every element of a list. -/
def jsonWFList : List PyVal → Bool
  | [] => true
  | x :: xs => jsonWF x && jsonWFList xs

/-- Well-formedness of every value of a dict entry list. -/
def jsonWFDict : List (String × PyVal) → Bool
  | [] => true
  | kv :: kvs => jsonWF kv.2 && jsonWFDict kvs

end

/-- The standard base64 alphabet, index order. -/
def b64Alphabet : List Char :=
  "ABCDEFGHIJKLMNOPQRSTUVWXYZabcdefghijklmnopqrstuvwxyz0123456789+/".data

/-- Character for a sextet value. -/
def b64Char (n : Nat) : Char := b64Alphabet.getD n 'A'

/-- Sextet value of an alphabet character, `none` for a non-alphabet one. -/
def b64Index? (c : Char) : Option Nat := b64Alphabet.indexOf? c

/-- Characters `base64.b64decode` (with its default `validate=False`) keeps:
alphabet characters and the padding character. -/
def b64Kept (c : Char) : Bool := (b64Index? c).isSome || c = '='

/-- Standard base64 encoding of a byte list, three bytes to four characters,
padded with `=`. -/
def b64encodeCore : List Nat → List Char
  | [] => []
  | [a] => [b64Char (a / 4), b64Char (a % 4 * 16), '=', '=']
  | [a, b] => [b64Char (a / 4), b64Char (a % 4 * 16 + b / 16), b64Char (b % 16 * 4), '=']
  | a :: b :: c :: rest =>
      b64Char (a / 4) :: b64Char (a % 4 * 16 + b / 16) ::
        b64Char (b % 16 * 4 + c / 64) :: b64Char (c % 64) :: b64encodeCore rest

/-- Model of `base64.b64encode` (as text). -/
def b64encode (bs : List Nat) : String := String.mk (b64encodeCore bs)

/-- Decode groups of four base64 characters; padding only in a final group. -/
def b64decodeCore : List Char → Option (List Nat)
  | [] => some []
  | [a, b, '=', '='] => do
      let x ← b64Index? a
      let y ← b64Index? b
      some [x * 4 + y / 16]
  | [a, b, c, '='] => do
      let x ← b64Index? a
      let y ← b64Index? b
      let z ← b64Index? c
      some [x * 4 + y / 16, y % 16 * 16 + z / 4]
  | a :: b :: c :: d :: rest => do
      let x ← b64Index? a
      let y ← b64Index? b
      let z ← b64Index? c
      let w ← b64Index? d
      let tl ← b64decodeCore rest
      some ((x * 4 + y / 16) :: (y % 16 * 16 + z / 4) :: (z % 4 * 64 + w) :: tl)
  | _ => Option.none

/-- Model of `base64.b64decode` on text with the default `validate=False`:
non-alphabet characters are discarded, then the kept length must be a
multiple of four (`binascii.Error` otherwise), then groups decode. -/
def b64decode (s : String) : Except PyErr (List Nat) :=
  let kept := s.data.filter b64Kept
  if kept.length % 4 ≠ 0 then .error .binasciiError
  else
    match b64decodeCore kept with
    | some bs => .ok bs
    | Option.none => .error .binasciiError

/-- UTF-8 text of a byte list, for the ASCII fragment (every byte below 128
is its own code point; the pipeline's compressed payloads are ASCII JSON).
A byte at or above 128 conservatively models `UnicodeDecodeError`. -/
def asciiDecode (bs : List Nat) : Except PyErr String :=
  if bs.all (fun b => b < 128) then .ok (String.mk (bs.map Char.ofNat))
  else .error .unicodeDecodeError

/-- UTF-8 bytes of a string; exact for ASCII text, which is all the encoder
side of the round-trip claim produces (`jsonWF` restricts strings to
printable ASCII and the compact encoder adds only ASCII punctuation). -/
def strToBytes (s : String) : List Nat := s.data.map Char.toNat

/-- Python `s[1:-1]` applied when `s.startswith('"') and s.endswith('"')`,
as `decode_compressed_data` does to literal-quoted payloads. -/
def stripQuotesOnce (s : String) : String :=
  match s.data with
  | [] => s
  | c :: rest =>
      if c = '"' ∧ (c :: rest).getLast? = some '"' then
        String.mk ((c :: rest).drop 1 |>.dropLast)
      else s

/-- Model of `monitor_car_telemetry.decode_compressed_data`: strip a literal
quote wrapper from string input, base64-decode, raw-deflate-decompress
(the `zlib.decompress(…, -zlib.MAX_WBITS)` codec is passed in as `inflate`),
then parse the result as JSON.  Any failing step logs and re-raises, which
this model expresses by returning the error; non-string input fails inside
`b64decode` with a `TypeError`. -/
def decode_compressed_data (inflate : List Nat → Except PyErr (List Nat))
    (encoded : PyVal) : Except PyErr PyVal :=
  match encoded with
  | .str s0 => do
      let bs ← b64decode (stripQuotesOnce s0)
      let plain ← inflate bs
      let txt ← asciiDecode plain
      jsonLoads txt
  | _ => .error .typeError

/-- The wire-format encoder the round-trip claim quantifies over: compact
JSON text, UTF-8 bytes, raw-deflate compression (passed in as `deflate`),
base64 text, optionally wrapped in literal quotes. -/
def encodePayload (deflate : List Nat → List Nat) (quoted : Bool) (v : PyVal) :
    String :=
  let b := b64encode (deflate (strToBytes (jsonDumps v)))
  if quoted then "\"" ++ b ++ "\"" else b

/-- Domain record built by `F1DataTransformer._process_driver_list`
(`models.Driver`).  Textual fields keep the dynamic values taken from the
payload. -/
structure Driver where
  driver_number : Int
  name : PyVal
  team : PyVal
  country_code : PyVal
  team_color : PyVal
  first_name : PyVal
  last_name : PyVal
  short_name : PyVal
  broadcast_name : PyVal
deriving Repr, DecidableEq

/-- Domain record built by `F1DataTransformer._process_session_info`
(`models.Session`). -/
structure Session where
  session_key : Int
  meeting_key : Int
  name : PyVal
  date : Option Datetime
  circuit : PyVal
  type : PyVal
  location : PyVal
  country_name : PyVal
deriving Repr, DecidableEq

/-- Domain record for one lap (`models.LapData`); also the column set of the
`lap_data` table rows in `loader.py` (the serial `id` and `created_at`
bookkeeping columns carry no claim content). -/
structure LapData where
  driver_number : Int
  lap_number : Int
  lap_time : Option PyFloat
  sector_1_time : Option PyFloat
  sector_2_time : Option PyFloat
  sector_3_time : Option PyFloat
  speed_trap : Option Int
  timestamp : Option Datetime
deriving Repr, DecidableEq

/-- Domain record for a classification position (`models.Position`). -/
structure Position where
  driver_number : Int
  position : Int
  timestamp : Datetime
deriving Repr, DecidableEq

/-- Domain record for car telemetry (`models.TelemetryData`).  The channel
fields are ints where the handler converts (`int(...)`); the spatial fields
keep the raw payload values, as `_process_position_data` assigns them without
conversion. -/
structure TelemetryData where
  driver_number : Int
  timestamp : Datetime
  speed : Option Int
  rpm : Option Int
  gear : Option Int
  throttle : Option Int
  brake : Option Int
  drs : Option Int
  x : Option PyVal
  y : Option PyVal
  z : Option PyVal
deriving Repr, DecidableEq

/-- Domain record for a race-control message (`models.RaceControl`). -/
structure RaceControl where
  timestamp : Datetime
  message : PyVal
  category : PyVal
  flag : PyVal
  driver_number : Option Int
  scope : PyVal
  sector : PyVal
  lap_number : PyVal
deriving Repr, DecidableEq

/-- Domain record for a weather sample (`models.Weather`).  `rainfall` is a
Python boolean: `_process_weather_data` assigns the result of a string
comparison, never a float. -/
structure Weather where
  timestamp : Datetime
  air_temp : Option PyFloat
  track_temp : Option PyFloat
  humidity : Option PyFloat
  pressure : Option PyFloat
  wind_speed : Option PyFloat
  wind_direction : Option Int
  rainfall : Bool
deriving Repr, DecidableEq

/-- The per-entity collections accumulated by
`F1DataTransformer.process_data_batch`: the seven keys of its result dict. -/
structure BatchResult where
  drivers : List Driver
  sessions : List Session
  lap_data : List LapData
  positions : List Position
  telemetry : List TelemetryData
  race_control : List RaceControl
  weather : List Weather
deriving Repr, DecidableEq

/-- The empty result dict skeleton `process_data_batch` starts from. -/
def emptyBatch : BatchResult :=
  ⟨[], [], [], [], [], [], []⟩

/-- Transformer instance state: the `drivers_cache` and `session_info`
bookkeeping fields (written during a pass, read by no claim path). -/
structure TransformerState where
  drivers_cache : List (Int × Driver)
  session_info : Option Session

/-- Mutable context of one `process_data_batch` pass: the result collections
plus the transformer instance state. -/
structure Ctx where
  res : BatchResult
  st : TransformerState

/-- Python `v is None` on the modelled values. -/
def isPyNone : PyVal → Bool
  | .none => true
  | _ => false

/-- Model of `F1DataTransformer._parse_float`: `None` or the empty string
give `None`; otherwise `float(value)` with `ValueError`/`TypeError` giving
`None`.  Any other exception of `float(value)` (the int-overflow case)
escapes the `except` clause. -/
def parse_float (value : PyVal) : Except PyErr (Option PyFloat) :=
  if isPyNone value ∨ pyEqb value (.str "") then .ok Option.none
  else
    match pyFloatOf value with
    | .ok q => .ok (some q)
    | .error .valueError => .ok Option.none
    | .error .typeError => .ok Option.none
    | .error e => .error e

/-- Model of `_parse_int` (the identical function appears in
`transformer.py` and `main.py`): `None` or the empty string give `None`;
otherwise `int(value)` with `ValueError`/`TypeError` giving `None`.  The
`OverflowError` that `int()` raises on an infinite float escapes the
`except` clause. -/
def parse_int (value : PyVal) : Except PyErr (Option Int) :=
  if isPyNone value ∨ pyEqb value (.str "") then .ok Option.none
  else
    match pyIntOf value with
    | .ok n => .ok (some n)
    | .error .valueError => .ok Option.none
    | .error .typeError => .ok Option.none
    | .error e => .error e

/-- Minutes/seconds lap-time pattern `(\d+):(\d+\.\d+)` matched at the start
of a string (`re.match` anchors at the start and ignores trailing text).
Returns the minutes and the seconds value on a match. -/
def lapTimeRegex (s : String) : Option (Nat × PyFloat) :=
  let cs := s.data
  let mins := cs.takeWhile Char.isDigit
  if mins = [] then Option.none
  else
    match cs.drop mins.length with
    | ':' :: rest =>
        let secInt := rest.takeWhile Char.isDigit
        if secInt = [] then Option.none
        else
          match rest.drop secInt.length with
          | '.' :: rest2 =>
              let secFrac := rest2.takeWhile Char.isDigit
              if secFrac = [] then Option.none
              else
                some (digitsVal mins, floatOfParts secInt secFrac)
          | _ => Option.none
    | _ => Option.none

/-- Model of `F1DataTransformer._parse_lap_time`: falsy input gives `None`;
then `float(time_str)` is tried, a `ValueError`/`TypeError` falls back to
the `M:SS.mmm` regex under a catch-all (so a non-string falls through to
`None`), and the int-overflow error of `float` escapes both clauses. -/
def parse_lap_time (time_str : PyVal) : Except PyErr (Option PyFloat) :=
  if !pyTruthy time_str ∨ pyEqb time_str (.str "") then .ok Option.none
  else
    match pyFloatOf time_str with
    | .ok q => .ok (some q)
    | .error .valueError =>
        match time_str with
        | .str s =>
            match lapTimeRegex s with
            | some (m, sec) => .ok (some (PyFloat.add (.ofInt (m * 60 : Nat)) sec))
            | Option.none => .ok Option.none
        | _ => .ok Option.none
    | .error .typeError =>
        match time_str with
        | .str s =>
            match lapTimeRegex s with
            | some (m, sec) => .ok (some (PyFloat.add (.ofInt (m * 60 : Nat)) sec))
            | Option.none => .ok Option.none
        | _ => .ok Option.none
    | .error e => .error e

/-- Replacement of every `Z` character by `+00:00`, the effect of the
`timestamp_str.replace("Z", "+00:00")` calls on the feed's timestamps
(`String.replace` itself is avoided as its byte-position recursion does not
kernel-reduce). -/
def replaceZChars : List Char → List Char
  | [] => []
  | c :: rest =>
      if c = 'Z' then '+' :: '0' :: '0' :: ':' :: '0' :: '0' :: replaceZChars rest
      else c :: replaceZChars rest

/-- Python `str.lower()` on the ASCII strings the code compares. -/
def lowerStr (s : String) : String := String.mk (s.data.map Char.toLower)

/-- Model of `F1DataTransformer._parse_timestamp` with the processing-time
clock passed explicitly: falsy input gives `now`; otherwise
`fromisoformat(str.replace("Z", "+00:00"))` — which keeps the zone offset —
with `ValueError` falling back to `now`, and a truthy non-string raising
`AttributeError` at the `.replace` call. -/
def parse_timestamp (now : Datetime) (timestamp_val : PyVal) :
    Except PyErr Datetime :=
  if !pyTruthy timestamp_val then .ok now
  else
    match timestamp_val with
    | .str s =>
        match fromisoformat (String.mk (replaceZChars s.data)) with
        | .ok dt => .ok dt
        | .error _ => .ok now
    | _ => .error .attributeError

/-- Computation monad for one transform pass: mutable context plus Python
exceptions.  The context survives a raised exception (Python mutates the
result dict in place, so a failing line keeps its partial contributions). -/
abbrev TM (α : Type) := ExceptT PyErr (StateM Ctx) α

/-- Lift a pure fallible step into the pass monad. -/
def liftE : Except PyErr α → TM α
  | .ok a => pure a
  | .error e => throw e

/-- Python `try/except (ValueError, TypeError)` around a unit body: those
two exception classes are swallowed (after logging), anything else
propagates; the context mutations made before the exception stay. -/
def catchVT (body : TM Unit) : TM Unit :=
  ExceptT.mk fun ctx =>
    match body.run ctx with
    | (.ok a, c) => (.ok a, c)
    | (.error .valueError, c) => (.ok (), c)
    | (.error .typeError, c) => (.ok (), c)
    | (.error e, c) => (.error e, c)

/-- Python `try/except (ValueError, TypeError, IndexError)` around a unit
body. -/
def catchVTI (body : TM Unit) : TM Unit :=
  ExceptT.mk fun ctx =>
    match body.run ctx with
    | (.ok a, c) => (.ok a, c)
    | (.error .valueError, c) => (.ok (), c)
    | (.error .typeError, c) => (.ok (), c)
    | (.error .indexError, c) => (.ok (), c)
    | (.error e, c) => (.error e, c)

/-- Python `try/except Exception` around a unit body: every exception is
swallowed (after logging); the context mutations made before it stay. -/
def catchAll (body : TM Unit) : TM Unit :=
  ExceptT.mk fun ctx =>
    match body.run ctx with
    | (.ok a, c) => (.ok a, c)
    | (.error _, c) => (.ok (), c)

/-- Whether `needle` occurs as a contiguous run at the front of `hay`. -/
def startsWithList : List Char → List Char → Bool
  | [], _ => true
  | _ :: _, [] => false
  | a :: as, b :: bs => a = b && startsWithList as bs

/-- Whether `needle` occurs as a contiguous run anywhere in `hay`. -/
def subListAny (needle : List Char) : List Char → Bool
  | [] => needle.isEmpty
  | c :: rest => startsWithList needle (c :: rest) || subListAny needle rest

/-- Python `key in v` for a string key: dict key membership, list element
membership, substring test on strings, `TypeError` otherwise. -/
def pyContainsStr (v : PyVal) (key : String) : Except PyErr Bool :=
  match v with
  | .dict kvs => .ok (kvs.any (fun kv => kv.1 = key))
  | .list xs => .ok (xs.any (fun x => pyEqb x (.str key)))
  | .str s => .ok (subListAny key.data s.data)
  | _ => .error .typeError

/-- Python `v[key]` for a string key on a value whose key membership was
already established on a dict; subscripting a non-dict with a string raises
`TypeError`. -/
def pyGetItem (v : PyVal) (key : String) : Except PyErr PyVal :=
  match v with
  | .dict kvs =>
      match dictGet? kvs key with
      | some x => .ok x
      | Option.none => .error .keyError
  | _ => .error .typeError

/-- Python dict assignment on the `drivers_cache`. -/
def cacheInsert (cache : List (Int × Driver)) (k : Int) (d : Driver) :
    List (Int × Driver) :=
  if cache.any (fun kv => kv.1 = k) then
    cache.map (fun kv => if kv.1 = k then (k, d) else kv)
  else cache ++ [(k, d)]

/-- The `Driver(...)` construction of `_process_driver_list`: field values
are `driver_data.get(...)` calls in source order (each raising
`AttributeError` on a non-dict payload). -/
def driver_of (n : Int) (dd : PyVal) : Except PyErr Driver := do
  let name ← pyGetDefault dd "Name" (.str "")
  let team ← pyGetDefault dd "TeamName" (.str "")
  let tla ← pyGetDefault dd "Tla" (.str "")
  let color ← pyGetDefault dd "TeamColour" (.str "")
  let fn ← pyGetDefault dd "FirstName" (.str "")
  let ln ← pyGetDefault dd "LastName" (.str "")
  let tla2 ← pyGetDefault dd "Tla" (.str "")
  let bn ← pyGetDefault dd "RacingNumber" (.str "")
  pure ⟨n, name, team, tla, color, fn, ln, tla2, bn⟩

/-- Model of `F1DataTransformer._process_driver_list`: for each
`(driver_number, driver_data)` item, convert the key with `int(...)`, build
a `Driver`, append it and update the cache; `ValueError`/`TypeError` is
caught per driver, anything else propagates. -/
def process_driver_list (data : List (String × PyVal)) : TM Unit := do
  match dictGet? data "data" with
  | Option.none => pure ()
  | some payload =>
      match payload with
      | .dict entries =>
          entries.forM fun kv =>
            catchVT do
              let n ← liftE (pyIntOf (.str kv.1))
              let d ← liftE (driver_of n kv.2)
              modify fun ctx =>
                { res := { ctx.res with drivers := ctx.res.drivers ++ [d] },
                  st := { ctx.st with
                    drivers_cache := cacheInsert ctx.st.drivers_cache n d } }
      | _ => throw .attributeError

/-- Model of `F1DataTransformer._process_session_info`: parse the start
date, build a `Session`, append it and remember it; the whole body is under
a catch-all, so any failure just skips the session. -/
def process_session_info (data : List (String × PyVal)) : TM Unit := do
  match dictGet? data "data" with
  | Option.none => pure ()
  | some sd =>
      catchAll do
        let dateStr ← liftE (pyGetDefault sd "StartDate" (.str ""))
        let session_date ←
          if pyTruthy dateStr then
            match dateStr with
            | .str s => liftE ((fromisoformat s).map some)
            | _ => throw .typeError
          else pure Option.none
        let key ← liftE (do pyIntOf (← pyGetDefault sd "Key" (.int 0)))
        let mk ← liftE (do pyIntOf (← pyGetDefault sd "MeetingKey" (.int 0)))
        let name ← liftE (pyGetDefault sd "Name" (.str ""))
        let circuit ← liftE (pyGetDefault sd "CircuitShortName" (.str ""))
        let ty ← liftE (pyGetDefault sd "Type" (.str ""))
        let loc ← liftE (pyGetDefault sd "Location" (.str ""))
        let cn ← liftE (pyGetDefault sd "CountryName" (.str ""))
        let s : Session := ⟨key, mk, name, session_date, circuit, ty, loc, cn⟩
        modify fun ctx =>
          { res := { ctx.res with sessions := ctx.res.sessions ++ [s] },
            st := { ctx.st with session_info := some s } }

/-- One `Sector{i}Time`-style sub-field read of the timing handlers:
presence check, subscript, `.get("Value", "")`, then lap-time parsing. -/
def readSectorTime (dv : PyVal) (key : String) :
    Except PyErr (Option (Option PyFloat)) := do
  if (← pyContainsStr dv key) then
    let sub ← pyGetItem dv key
    let sv ← pyGetDefault sub "Value" (.str "")
    let t ← parse_lap_time sv
    pure (some t)
  else pure Option.none

/-- Model of `F1DataTransformer._process_timing_data`: per driver (catching
`ValueError`/`TypeError`), a `LastLapTime` presence produces a `LapData`
with optional sectors and speed trap, and a `Position` presence separately
produces a `Position` fact. -/
def process_timing_data (now : Datetime) (data : List (String × PyVal)) :
    TM Unit := do
  match dictGet? data "data" with
  | Option.none => pure ()
  | some payload => do
      let tsv := (dictGet? data "timestamp").getD (.str "")
      let timestamp ← liftE (parse_timestamp now tsv)
      match payload with
      | .dict entries =>
          entries.forM fun kv =>
            catchVT do
              let n ← liftE (pyIntOf (.str kv.1))
              let dv := kv.2
              if (← liftE (pyContainsStr dv "LastLapTime")) then
                let llt ← liftE (pyGetDefault dv "LastLapTime" (.dict []))
                let lts ← liftE (pyGetDefault llt "Value" (.str ""))
                let lap_time ← liftE (parse_lap_time lts)
                let lapNumV ← liftE (pyGetDefault dv "NumberOfLaps" (.int 0))
                let lap_number ← liftE (pyIntOf lapNumV)
                let lap : LapData :=
                  ⟨n, lap_number, lap_time, Option.none, Option.none,
                    Option.none, Option.none, some timestamp⟩
                let lap ←
                  match ← liftE (readSectorTime dv "Sector1Time") with
                  | some t => pure { lap with sector_1_time := t }
                  | Option.none => pure lap
                let lap ←
                  match ← liftE (readSectorTime dv "Sector2Time") with
                  | some t => pure { lap with sector_2_time := t }
                  | Option.none => pure lap
                let lap ←
                  match ← liftE (readSectorTime dv "Sector3Time") with
                  | some t => pure { lap with sector_3_time := t }
                  | Option.none => pure lap
                let lap ←
                  if (← liftE (pyContainsStr dv "BestSpeed")) then do
                    let bs ← liftE (pyGetItem dv "BestSpeed")
                    let sv ← liftE (pyGetDefault bs "Value" (.str ""))
                    match pyIntOf sv with
                    | .ok st => pure { lap with speed_trap := some st }
                    | .error .valueError => pure lap
                    | .error .typeError => pure lap
                    | .error e => throw e
                  else pure lap
                modify fun ctx =>
                  { ctx with res :=
                      { ctx.res with lap_data := ctx.res.lap_data ++ [lap] } }
              if (← liftE (pyContainsStr dv "Position")) then
                match (do pyIntOf (← pyGetItem dv "Position") :
                    Except PyErr Int) with
                | .ok p =>
                    modify fun ctx =>
                      { ctx with res :=
                          { ctx.res with positions :=
                              ctx.res.positions ++ [⟨n, p, timestamp⟩] } }
                | .error .valueError => pure ()
                | .error .typeError => pure ()
                | .error e => throw e
      | _ => throw .attributeError

/-- Model of `F1DataTransformer._process_timing_app_data`: per driver
(catching `ValueError`/`TypeError`), each entry under `Lines` either
retroactively completes the first already-collected lap with the same
(driver, lap) key or appends a fresh one, then fills sectors and speed trap
on it in place. -/
def process_timing_app_data (now : Datetime) (data : List (String × PyVal)) :
    TM Unit := do
  match dictGet? data "data" with
  | Option.none => pure ()
  | some payload => do
      let tsv := (dictGet? data "timestamp").getD (.str "")
      let timestamp ← liftE (parse_timestamp now tsv)
      match payload with
      | .dict entries =>
          entries.forM fun kv =>
            catchVT do
              let n ← liftE (pyIntOf (.str kv.1))
              let dv := kv.2
              if (← liftE (pyContainsStr dv "Lines")) then
                let linesv ← liftE (pyGetItem dv "Lines")
                match linesv with
                | .dict lineEntries =>
                    lineEntries.forM fun lkv => do
                      let lap_info := lkv.2
                      let lapNum ← liftE
                        (do pyIntOf (← pyGetDefault lap_info "NumberOfLaps" (.int 0)))
                      let ctx ← get
                      let idx? := ctx.res.lap_data.findIdx?
                        (fun l => l.driver_number = n ∧ l.lap_number = lapNum)
                      let idx ←
                        match idx? with
                        | some i => pure i
                        | Option.none => do
                            let fresh : LapData :=
                              ⟨n, lapNum, Option.none, Option.none, Option.none,
                                Option.none, Option.none, some timestamp⟩
                            modify fun ctx =>
                              { ctx with res :=
                                  { ctx.res with lap_data :=
                                      ctx.res.lap_data ++ [fresh] } }
                            pure ctx.res.lap_data.length
                      let setAt (f : LapData → LapData) : TM Unit :=
                        modify fun ctx =>
                          { ctx with res :=
                              { ctx.res with lap_data :=
                                  ctx.res.lap_data.modify f idx } }
                      match ← liftE (readSectorTime lap_info "Sector1") with
                      | some t => setAt (fun l => { l with sector_1_time := t })
                      | Option.none => pure ()
                      match ← liftE (readSectorTime lap_info "Sector2") with
                      | some t => setAt (fun l => { l with sector_2_time := t })
                      | Option.none => pure ()
                      match ← liftE (readSectorTime lap_info "Sector3") with
                      | some t => setAt (fun l => { l with sector_3_time := t })
                      | Option.none => pure ()
                      if (← liftE (pyContainsStr lap_info "SpeedTrap")) then
                        let stv ← liftE (pyGetItem lap_info "SpeedTrap")
                        let sv ← liftE (pyGetDefault stv "Value" (.str ""))
                        match pyIntOf sv with
                        | .ok st => setAt (fun l => { l with speed_trap := some st })
                        | .error .valueError => pure ()
                        | .error .typeError => pure ()
                        | .error e => throw e
                      else pure ()
                | _ => throw .attributeError
      | _ => throw .attributeError

/-- Model of `F1DataTransformer._process_position_data`: a per-driver list
payload of length at least two becomes a spatial `TelemetryData` fact with
raw `x`, `y` and a `z` defaulting to integer `0`. -/
def process_position_data (now : Datetime) (data : List (String × PyVal)) :
    TM Unit := do
  match dictGet? data "data" with
  | Option.none => pure ()
  | some payload => do
      let tsv := (dictGet? data "timestamp").getD (.str "")
      let timestamp ← liftE (parse_timestamp now tsv)
      match payload with
      | .dict entries =>
          entries.forM fun kv =>
            catchVTI do
              let n ← liftE (pyIntOf (.str kv.1))
              match kv.2 with
              | .list pos =>
                  if pos.length ≥ 2 then
                    let x := pos.getD 0 .none
                    let y := pos.getD 1 .none
                    let z := if pos.length > 2 then pos.getD 2 .none else .int 0
                    let t : TelemetryData :=
                      ⟨n, timestamp, Option.none, Option.none, Option.none,
                        Option.none, Option.none, Option.none,
                        some x, some y, some z⟩
                    modify fun ctx =>
                      { ctx with res :=
                          { ctx.res with telemetry := ctx.res.telemetry ++ [t] } }
                  else pure ()
              | _ => pure ()
      | _ => throw .attributeError

/-- Model of `F1DataTransformer._process_car_data`: a per-driver dict
payload maps the named channels through `int(...)` onto a `TelemetryData`
fact (a failing channel conversion skips the whole driver, as the record is
appended last). -/
def process_car_data (now : Datetime) (data : List (String × PyVal)) :
    TM Unit := do
  match dictGet? data "data" with
  | Option.none => pure ()
  | some payload => do
      let tsv := (dictGet? data "timestamp").getD (.str "")
      let timestamp ← liftE (parse_timestamp now tsv)
      match payload with
      | .dict entries =>
          entries.forM fun kv =>
            catchVT do
              let n ← liftE (pyIntOf (.str kv.1))
              match kv.2 with
              | .dict cd => do
                  let chan (key : String) : TM (Option Int) :=
                    if cd.any (fun c => c.1 = key) then do
                      let v ← liftE (pyGetItem (.dict cd) key)
                      let i ← liftE (pyIntOf v)
                      pure (some i)
                    else pure Option.none
                  let speed ← chan "Speed"
                  let rpm ← chan "RPM"
                  let gear ← chan "nGear"
                  let throttle ← chan "Throttle"
                  let brake ← chan "Brake"
                  let drs ← chan "DRS"
                  let t : TelemetryData :=
                    ⟨n, timestamp, speed, rpm, gear, throttle, brake, drs,
                      Option.none, Option.none, Option.none⟩
                  modify fun ctx =>
                    { ctx with res :=
                        { ctx.res with telemetry := ctx.res.telemetry ++ [t] } }
              | _ => pure ()
      | _ => throw .attributeError

/-- Python `for x in v` element sequence: lists yield elements, dicts yield
their keys, strings yield their characters, anything else raises
`TypeError`. -/
def pyIterate (v : PyVal) : Except PyErr (List PyVal) :=
  match v with
  | .list xs => .ok xs
  | .dict kvs => .ok (kvs.map (fun kv => .str kv.1))
  | .str s => .ok (s.data.map (fun c => .str (String.mk [c])))
  | _ => .error .typeError

/-- Model of `F1DataTransformer._process_race_control`: each element of the
payload becomes one `RaceControl` fact under a per-message catch-all; a
failing driver-number conversion demotes that field to `None`. -/
def process_race_control (now : Datetime) (data : List (String × PyVal)) :
    TM Unit := do
  match dictGet? data "data" with
  | Option.none => pure ()
  | some payload => do
      let tsv := (dictGet? data "timestamp").getD (.str "")
      let timestamp ← liftE (parse_timestamp now tsv)
      let msgs ← liftE (pyIterate payload)
      msgs.forM fun md =>
        catchAll do
          let msg ← liftE (pyGetDefault md "Message" (.str ""))
          let category ← liftE (pyGetDefault md "Category" (.str ""))
          let flag ← liftE (pyGetDefault md "Flag" (.str ""))
          let dn ←
            if (← liftE (pyContainsStr md "DriverNumber")) then
              match (do pyIntOf (← pyGetItem md "DriverNumber") :
                  Except PyErr Int) with
              | .ok i => pure (some i)
              | .error .valueError => pure Option.none
              | .error .typeError => pure Option.none
              | .error e => throw e
            else pure Option.none
          let scope ← liftE (pyGetDefault md "Scope" (.str ""))
          let sector ← liftE (pyGetDefault md "Sector" .none)
          let lap ← liftE (pyGetDefault md "Lap" .none)
          let rc : RaceControl :=
            ⟨timestamp, msg, category, flag, dn, scope, sector, lap⟩
          modify fun ctx =>
            { ctx with res :=
                { ctx.res with race_control := ctx.res.race_control ++ [rc] } }

/-- Model of `F1DataTransformer._process_weather_data`: one `Weather` fact
per event under a catch-all; `rainfall` is the boolean result of
`weather_data.get("Rainfall", "").lower() == "true"`. -/
def process_weather_data_t (now : Datetime) (data : List (String × PyVal)) :
    TM Unit := do
  match dictGet? data "data" with
  | Option.none => pure ()
  | some wd => do
      let tsv := (dictGet? data "timestamp").getD (.str "")
      let timestamp ← liftE (parse_timestamp now tsv)
      catchAll do
        let air ← liftE (do parse_float (← pyGetDefault wd "AirTemp" (.str "")))
        let track ← liftE (do parse_float (← pyGetDefault wd "TrackTemp" (.str "")))
        let hum ← liftE (do parse_float (← pyGetDefault wd "Humidity" (.str "")))
        let pres ← liftE (do parse_float (← pyGetDefault wd "Pressure" (.str "")))
        let ws ← liftE (do parse_float (← pyGetDefault wd "WindSpeed" (.str "")))
        let wdir ← liftE (do parse_int (← pyGetDefault wd "WindDirection" (.str "")))
        let rv ← liftE (pyGetDefault wd "Rainfall" (.str ""))
        let rainfall ←
          match rv with
          | .str s => pure (lowerStr s == "true")
          | _ => throw .attributeError
        let w : Weather := ⟨timestamp, air, track, hum, pres, ws, wdir, rainfall⟩
        modify fun ctx =>
          { ctx with res :=
              { ctx.res with weather := ctx.res.weather ++ [w] } }

/-- Model of the per-line body of `process_data_batch`: skip blank lines,
`json.loads` the line, and dispatch on the `topic` field; the raised errors
of this function are exactly what the per-line catch-all in
`process_data_batch` absorbs. -/
def process_line (now : Datetime) (line : String) : TM Unit := do
  if line.data.all Char.isWhitespace then pure ()
  else do
    let data ← liftE (jsonLoads line)
    match data with
    | .dict kvs =>
        match dictGet? kvs "topic" with
        | Option.none => pure ()
        | some topic =>
            if pyEqb topic (.str "DriverList") then process_driver_list kvs
            else if pyEqb topic (.str "SessionInfo") then process_session_info kvs
            else if pyEqb topic (.str "TimingData") then process_timing_data now kvs
            else if pyEqb topic (.str "TimingAppData") then
              process_timing_app_data now kvs
            else if pyEqb topic (.str "Position.z") then
              process_position_data now kvs
            else if pyEqb topic (.str "CarData.z") then process_car_data now kvs
            else if pyEqb topic (.str "RaceControlMessages") then
              process_race_control now kvs
            else if pyEqb topic (.str "WeatherData") then
              process_weather_data_t now kvs
            else pure ()
    | .list xs =>
        if xs.any (fun x => pyEqb x (.str "topic")) then throw .typeError
        else pure ()
    | .str s =>
        if subListAny "topic".data s.data then throw .typeError else pure ()
    | _ => throw .typeError

/-- Model of `F1DataTransformer._deduplicate_by_attr` specialised to the
integer key attributes it is called with: walk the list keeping the first
item for each not-yet-seen key value. -/
def deduplicate_by_attr (key : α → Int) : List α → List Int → List α
  | [], _ => []
  | x :: xs, seen =>
      if seen.contains (key x) then deduplicate_by_attr key xs seen
      else x :: deduplicate_by_attr key xs (key x :: seen)

/-- The per-line loop of `process_data_batch`, each line under the source's
catch-all (`except json.JSONDecodeError` / `except Exception`). -/
def runLines (now : Datetime) : List String → TM Unit
  | [] => pure ()
  | l :: ls => do
      catchAll (process_line now l)
      runLines now ls

/-- Initial transformer context: empty collections and caches. -/
def initCtx : Ctx := ⟨emptyBatch, ⟨[], Option.none⟩⟩

/-- Final deduplication step of `process_data_batch`: collapse the driver
and session collections by key when non-empty. -/
def dedupStep (r : BatchResult) : BatchResult :=
  let r :=
    if !r.drivers.isEmpty then
      { r with drivers :=
          deduplicate_by_attr (fun d => d.driver_number) r.drivers [] }
    else r
  if !r.sessions.isEmpty then
    { r with sessions :=
        deduplicate_by_attr (fun s => s.session_key) r.sessions [] }
  else r

/-- Model of `F1DataTransformer.process_data_batch` with the processing-time
clock passed explicitly.  An empty input returns the empty dict (modelled as
`Option.none`); otherwise every line is processed under a per-line
catch-all and the seven collections are returned after deduplication.  The
theorems show the `.error` outcome is unreachable. -/
def process_data_batch (now : Datetime) (raw_lines : List String) :
    Except PyErr (Option BatchResult) :=
  if raw_lines.isEmpty then .ok Option.none
  else
    match (runLines now raw_lines).run initCtx with
    | (.ok _, ctx) => .ok (some (dedupStep ctx.res))
    | (.error e, _) => .error e

/-- SQL `COALESCE(EXCLUDED.col, lap_data.col)`: the incoming value wins when
non-null, the stored value is kept otherwise. -/
def coalesceNew (stored incoming : Option α) : Option α :=
  match incoming with
  | some v => some v
  | Option.none => stored

/-- The `ON CONFLICT (driver_number, lap_number) DO UPDATE SET` clause of
`PostgreSQLLoader._load_lap_data`: every column merges with COALESCE except
`timestamp`, which is assigned `EXCLUDED.timestamp` unconditionally. -/
def merge_lap (stored incoming : LapData) : LapData :=
  { driver_number := stored.driver_number
    lap_number := stored.lap_number
    lap_time := coalesceNew stored.lap_time incoming.lap_time
    sector_1_time := coalesceNew stored.sector_1_time incoming.sector_1_time
    sector_2_time := coalesceNew stored.sector_2_time incoming.sector_2_time
    sector_3_time := coalesceNew stored.sector_3_time incoming.sector_3_time
    speed_trap := coalesceNew stored.speed_trap incoming.speed_trap
    timestamp := incoming.timestamp }

/-- Key equality for the `UNIQUE (driver_number, lap_number)` constraint. -/
def lapKeyEq (a b : LapData) : Bool :=
  a.driver_number = b.driver_number ∧ a.lap_number = b.lap_number

/-- One `INSERT ... ON CONFLICT DO UPDATE` of `_load_lap_data` against the
`lap_data` table, modelled as a row list: update the conflicting row or
append a new one. -/
def upsert_lap (db : List LapData) (r : LapData) : List LapData :=
  if db.any (fun o => lapKeyEq o r) then
    db.map (fun o => if lapKeyEq o r then merge_lap o r else o)
  else db ++ [r]

/-- Model of `PostgreSQLLoader._load_lap_data`: the batch upserts in order
into the table state. -/
def load_lap_data (db : List LapData) (batch : List LapData) : List LapData :=
  batch.foldl upsert_lap db

/-- The value tuple `PostgreSQLLoader._load_weather` hands to the store for
one `Weather` record.  `rainfall` is the dynamic value of the record's
field — a Python boolean — passed through unchanged; the timestamp is also
passed through unchanged. -/
structure PgWeatherRow where
  timestamp : Datetime
  air_temp : Option PyFloat
  track_temp : Option PyFloat
  humidity : Option PyFloat
  pressure : Option PyFloat
  wind_speed : Option PyFloat
  wind_direction : Option Int
  rainfall : PyVal
deriving Repr, DecidableEq

/-- Row builder of `PostgreSQLLoader._load_weather`. -/
def pg_weather_row (w : Weather) : PgWeatherRow :=
  ⟨w.timestamp, w.air_temp, w.track_temp, w.humidity, w.pressure,
    w.wind_speed, w.wind_direction, .bool w.rainfall⟩

/-- The expression `t.replace(tzinfo=None) if t.tzinfo else t` used by the
Supabase row builders for weather, driver-position and car-telemetry rows. -/
def stripTzIfAware (t : Datetime) : Datetime :=
  if t.tzOffsetMinutes.isSome then replaceTzNone t else t

/-- The timestamp column value `SupabaseLoader._load_weather` computes for a
`Weather` record (a `timestamp without time zone` column). -/
def supabase_weather_ts (w : Weather) : Datetime := stripTzIfAware w.timestamp

/-- The timestamp column value `SupabaseLoader._load_driver_positions`
computes for a `Position` record. -/
def supabase_position_ts (p : Position) : Datetime := stripTzIfAware p.timestamp

/-- The timestamp column value `SupabaseLoader._load_car_telemetry` computes
for a `TelemetryData` record. -/
def supabase_telemetry_ts (t : TelemetryData) : Datetime :=
  stripTzIfAware t.timestamp

/-- The timestamp column value `SupabaseLoader._load_race_control_messages`
passes for a `RaceControl` record: `rc.timestamp` unchanged (the source
comments it `timestamp with time zone OK`). -/
def supabase_race_control_ts (rc : RaceControl) : Datetime := rc.timestamp

/-- The row `main.WeatherDataProcessor.process_weather_data` inserts into
`public.weather_data` (bookkeeping `created_at`/`updated_at` columns carry
no claim content).  `rainfall` here is numeric, not boolean. -/
structure WeatherDataRow where
  session_id : Int
  timestamp : Datetime
  air_temp : Option PyFloat
  track_temp : Option PyFloat
  humidity : Option PyFloat
  pressure : Option PyFloat
  rainfall : Option PyFloat
  wind_direction : Option Int
  wind_speed : Option PyFloat
deriving Repr, DecidableEq

/-- Model of `WeatherDataProcessor._parse_numeric` (`main.py`): `None` and
the empty string give `None`; booleans and the strings `"true"`/`"false"`
normalise to `1.0`/`0.0`; otherwise `float(value)` with
`ValueError`/`TypeError` giving `None` (int overflow escapes). -/
def parse_numeric (value : PyVal) : Except PyErr (Option PyFloat) :=
  if isPyNone value ∨ pyEqb value (.str "") then .ok Option.none
  else
    match value with
    | .bool b => .ok (some (.ofInt (if b then 1 else 0)))
    | .str s =>
        if lowerStr s = "true" ∨ lowerStr s = "false" then
          .ok (some (.ofInt (if lowerStr s = "true" then 1 else 0)))
        else
          match pyFloatOf (.str s) with
          | .ok q => .ok (some q)
          | .error .valueError => .ok Option.none
          | .error .typeError => .ok Option.none
          | .error e => .error e
    | v =>
        match pyFloatOf v with
        | .ok q => .ok (some q)
        | .error .valueError => .ok Option.none
        | .error .typeError => .ok Option.none
        | .error e => .error e

/-- Model of `WeatherDataProcessor.process_weather_data` (`main.py`) with
the clock explicit: the topic/payload guard returns count 0; the timestamp
is normalised to naive (`replace(tzinfo=None)`); the weather fields parse
through `_parse_numeric`/`_parse_int`; the insert body is under a catch-all
returning count 0.  The result pairs the inserted-row option with the
returned count. -/
def wp_process_weather_data (session_id : Int) (data : PyVal) (now : Datetime) :
    Except PyErr (Option WeatherDataRow × Int) :=
  match data with
  | .dict kvs =>
      let topicOk := pyEqb ((dictGet? kvs "topic").getD .none) (.str "WeatherData")
      if !topicOk ∨ (dictGet? kvs "data").isNone then .ok (Option.none, 0)
      else
        let wd := (dictGet? kvs "data").getD .none
        let tsv := (dictGet? kvs "timestamp").getD (.str "")
        let attempt : Except PyErr WeatherDataRow := do
          let timestamp ←
            if pyTruthy tsv then
              match tsv with
              | .str s =>
                  match fromisoformat (String.mk (replaceZChars s.data)) with
                  | .ok aware => .ok (replaceTzNone aware)
                  | .error _ => .ok now
              | _ => .error .attributeError
            else .ok now
          let air ← parse_numeric (← pyGetDefault wd "AirTemp" (.str ""))
          let track ← parse_numeric (← pyGetDefault wd "TrackTemp" (.str ""))
          let hum ← parse_numeric (← pyGetDefault wd "Humidity" (.str ""))
          let pres ← parse_numeric (← pyGetDefault wd "Pressure" (.str ""))
          let ws ← parse_numeric (← pyGetDefault wd "WindSpeed" (.str ""))
          let wdir ← parse_int (← pyGetDefault wd "WindDirection" (.str ""))
          let rain ← parse_numeric (← pyGetDefault wd "Rainfall" (.str "0"))
          pure ⟨session_id, timestamp, air, track, hum, pres, rain, wdir, ws⟩
        match attempt with
        | .ok row => .ok (some row, 1)
        | .error _ => .ok (Option.none, 0)
  | _ => .error .attributeError

/-- Model of the per-line body of the `main.py` monitoring loop for the
weather path: `ast.literal_eval` the line, and when it is a list of at
least three elements whose topic is `WeatherData`, rebuild the
topic/data/timestamp dict and hand it to the weather processor; every
failure is absorbed by the per-line catch-all, skipping the line. -/
def main_loop_line (session_id : Int) (line : String) (now : Datetime) :
    Option WeatherDataRow × Int :=
  let attempt : Except PyErr (Option WeatherDataRow × Int) := do
    let parsed ← literalEval line
    match parsed with
    | .list [topic, dataContent, ts] =>
        if pyEqb topic (.str "WeatherData") then
          wp_process_weather_data session_id
            (.dict [("topic", topic), ("data", dataContent), ("timestamp", ts)])
            now
        else .ok (Option.none, 0)
    | .list (_ :: _ :: _ :: _ :: _) => .error .valueError
    | _ => .ok (Option.none, 0)
  match attempt with
  | .ok r => r
  | .error _ => (Option.none, 0)

/-- Model of `monitor_car_telemetry.parse_data_line`: `ast.literal_eval`,
then unpack a list of at least three elements into (topic, data,
timestamp); every failure becomes a `ValueError`. -/
def parse_data_line (line : String) : Except PyErr (PyVal × PyVal × PyVal) :=
  match literalEval line with
  | .ok (.list (topic :: dat :: ts :: _)) => .ok (topic, dat, ts)
  | _ => .error .valueError

/-- The row `TelemetryProcessor.process_telemetry_data` inserts into
`public.car_telemetry` (bookkeeping columns elided).  Channel values are the
raw `channels.get(...)` results. -/
structure CarTelemetryRow where
  timestamp : Datetime
  utc_timestamp : Datetime
  session_id : Int
  driver_number : String
  rpm : PyVal
  speed : PyVal
  gear : PyVal
  throttle : PyVal
  brake : PyVal
  drs : PyVal
deriving Repr, DecidableEq

/-- One entry of the decoded `Entries` payload: emit a row per car that has
a `Channels` mapping, or fail as the source would. -/
def telemetryEntryRows (session_id : Int) (timestamp : Datetime)
    (entry : PyVal) : Except PyErr (List CarTelemetryRow) := do
  let hasUtc ← pyContainsStr entry "Utc"
  let hasCars ← pyContainsStr entry "Cars"
  if hasUtc ∧ hasCars then do
    let utcv ← pyGetItem entry "Utc"
    let entry_time ←
      match utcv with
      | .str s =>
          match fromisoformat (String.mk (replaceZChars s.data)) with
          | .ok aware => .ok (replaceTzNone aware)
          | .error _ => .ok timestamp
      | _ => .error .attributeError
    let carsv ← pyGetItem entry "Cars"
    match carsv with
    | .dict cars =>
        cars.foldlM (fun rows kv => do
          let hasChannels ← pyContainsStr kv.2 "Channels"
          if hasChannels then do
            let ch ← pyGetItem kv.2 "Channels"
            let getc (k : String) : Except PyErr PyVal := pyGetDefault ch k .none
            let rpm ← getc "0"
            let speed ← getc "2"
            let gear ← getc "3"
            let throttle ← getc "4"
            let brake ← getc "5"
            let drs ← getc "45"
            pure (rows ++ [⟨timestamp, entry_time, session_id, kv.1,
              rpm, speed, gear, throttle, brake, drs⟩])
          else pure rows) []
    | _ => .error .attributeError
  else pure []

/-- Model of `TelemetryProcessor.process_telemetry_data` with the clock
explicit: topic guard, naive timestamp, then the decode step whose failure
is caught and returns count 0; the entry loop accumulates rows, and an
exception inside it is absorbed by the outer catch-all, which returns
count 0 while keeping the rows already inserted.  The result pairs the
inserted rows with the returned count. -/
def process_telemetry_data (inflate : List Nat → Except PyErr (List Nat))
    (session_id : Int) (topic : PyVal) (encoded_data : PyVal)
    (timestamp_val : PyVal) (now : Datetime) :
    Except PyErr (List CarTelemetryRow × Int) := do
  if !pyEqb topic (.str "CarData.z") then .ok ([], 0)
  else do
    let timestamp ←
      if pyTruthy timestamp_val then
        match timestamp_val with
        | .str s =>
            match fromisoformat (String.mk (replaceZChars s.data)) with
            | .ok aware => .ok (replaceTzNone aware)
            | .error _ => .ok now
        | _ => .error .attributeError
      else .ok now
    match decode_compressed_data inflate encoded_data with
    | .error _ => .ok ([], 0)
    | .ok d =>
        let body : Except PyErr (List CarTelemetryRow) := do
          if (← pyContainsStr d "Entries") then do
            let entriesv ← pyGetItem d "Entries"
            let entries ← pyIterate entriesv
            entries.foldlM (fun rows e => do
              let newRows ← telemetryEntryRows session_id timestamp e
              pure (rows ++ newRows)) []
          else pure []
        match body with
        | .ok rows => .ok (rows, rows.length)
        | .error _ => .ok ([], 0)

/-- Split text into lines the way `readlines` does: each line keeps its
terminating newline; a trailing run without a newline is returned as a
final partial line.  `acc` holds the reversed characters of the line being
accumulated. -/
def splitLinesAux (acc : List Char) : List Char → List (List Char)
  | [] => if acc.isEmpty then [] else [acc.reverse]
  | c :: rest =>
      if c = '\n' then (acc.reverse ++ ['\n']) :: splitLinesAux [] rest
      else splitLinesAux (c :: acc) rest

/-- The `readlines` result of a file's content. -/
def splitLines (cs : List Char) : List (List Char) := splitLinesAux [] cs

/-- Model of `F1DataExtractor.get_new_data` on an existing file: seek to the
stored offset, `readlines()` to end of file (including a partial trailing
line), and advance the stored offset to `f.tell()`, the end of file. -/
def get_new_data (content : List Char) (pos : Nat) :
    List (List Char) × Nat :=
  (splitLines (content.drop pos), content.length)

/-- Run the tailing reader over a file written in successive appended
chunks, one `get_new_data` call after each append, starting from the file
state `file` whose length is the stored offset.  Returns the per-call line
lists. -/
def tailRun (file : List Char) : List (List Char) → List (List (List Char))
  | [] => []
  | c :: cs =>
      let file2 := file ++ c
      (get_new_data file2 file.length).1 :: tailRun file2 cs

/-- A fixed processing-time clock for the concrete scenarios (the value of
`datetime.now()` is irrelevant to all of them). -/
def epochNow : Datetime := ⟨2024, 1, 1, 0, 0, 0, 0, Option.none⟩

/-- A `DriverList` line carrying driver 44 with team `A`. -/
def driverLineTeamA : String :=
  "\x7b\"topic\":\"DriverList\",\"data\":\x7b\"44\":\x7b\"TeamName\":\"A\"\x7d\x7d\x7d"

/-- A `DriverList` line carrying driver 44 with team `B`. -/
def driverLineTeamB : String :=
  "\x7b\"topic\":\"DriverList\",\"data\":\x7b\"44\":\x7b\"TeamName\":\"B\"\x7d\x7d\x7d"

/-- The `Driver` record the transformer builds from `driverLineTeamA`
(missing payload fields default to the empty string). -/
def driverRecTeamA : Driver :=
  ⟨44, .str "", .str "A", .str "", .str "", .str "", .str "", .str "", .str ""⟩

/-- The JSON-object-shaped `WeatherData` line of the weather scenario. -/
def weatherLineJson : String :=
  "\x7b\"topic\":\"WeatherData\",\"data\":\x7b\"AirTemp\":\"23.5\",\"Rainfall\":\"true\"\x7d,\"timestamp\":\"2024-05-01T12:00:00Z\"\x7d"

/-- The 3-element-list-shaped `WeatherData` line of the end-to-end weather
scenario (the shape `main.py` ingests). -/
def weatherLineTriple : String :=
  "[\"WeatherData\", \x7b\"AirTemp\":\"23.5\",\"Rainfall\":\"true\"\x7d, \"2024-05-01T12:00:00Z\"]"

/-- A `RaceControlMessages` line with a zone-aware timestamp. -/
def raceControlLine : String :=
  "\x7b\"topic\":\"RaceControlMessages\",\"data\":[\x7b\"Message\":\"YELLOW FLAG\"\x7d],\"timestamp\":\"2024-05-01T12:00:00Z\"\x7d"

/-- Noon UTC as the aware datetime `fromisoformat` yields for
`2024-05-01T12:00:00+00:00`. -/
def awareNoon : Datetime := ⟨2024, 5, 1, 12, 0, 0, 0, some 0⟩

/-- Noon as a naive datetime. -/
def naiveNoon : Datetime := ⟨2024, 5, 1, 12, 0, 0, 0, Option.none⟩

/-- A stored `lap_data` row for driver 44, lap 12, with a known lap time
(91.234 s) and a non-null timestamp. -/
def lapRowStored : LapData :=
  ⟨44, 12, some ⟨91234, 1000⟩, Option.none, Option.none, Option.none,
    Option.none, some naiveNoon⟩

/-- An incoming partial `LapData` update for the same key carrying only
`sector_1_time` (its other columns, `timestamp` included, are null). -/
def lapRecPartial : LapData :=
  ⟨44, 12, Option.none, some ⟨30500, 1000⟩, Option.none, Option.none,
    Option.none, Option.none⟩

/-- The `Weather` record the transformer builds from `weatherLineJson`:
rainfall is the boolean `true`; the timestamp keeps its zone offset. -/
def weatherRecJson : Weather :=
  ⟨awareNoon, some ⟨235, 10⟩, Option.none, Option.none, Option.none,
    Option.none, Option.none, true⟩

/-- The `weather_data` row the `main.py` weather processor inserts for
`weatherLineTriple` under session 7: `air_temp = 235/10`, numeric
`rainfall = 1`, naive timestamp. -/
def weatherRowTriple : WeatherDataRow :=
  ⟨7, naiveNoon, some ⟨235, 10⟩, Option.none, Option.none, Option.none,
    some ⟨1, 1⟩, Option.none, Option.none⟩

/-- The `RaceControl` record the transformer builds from `raceControlLine`:
its timestamp keeps the `+00:00` offset. -/
def raceControlRec : RaceControl :=
  ⟨awareNoon, .str "YELLOW FLAG", .str "", .str "", Option.none, .str "",
    .none, .none⟩

/-- Values on which none of the three numeric parsers can raise: every
value except the ints at or beyond `floatOverflowBound` (`float(value)`
raises `OverflowError` inside `_parse_float` and `_parse_lap_time`) and the
infinite floats (`int(value)` raises `OverflowError` inside `_parse_int`;
`nan` is safe there - its `ValueError` is caught). -/
def floatSafe (v : PyVal) : Bool :=
  match v with
  | .int n => decide (n.natAbs < floatOverflowBound)
  | .float q => decide (q.den ≠ 0 ∨ q.num = 0)
  | _ => true

/-- A continuation on which a printed number ends correctly: empty, or
starting with a character that neither extends the digit run nor starts a
fraction or exponent.  Every continuation the compact encoder produces
(`,`, `]`, `\x7d` or end of text) satisfies it. -/
def numBoundary : List Char → Bool
  | [] => true
  | c :: _ => !c.isDigit && !(c = '.') && !(c = 'e') && !(c = 'E')

end F1

namespace F1

/-! Helper lemmas (shared across claim theorems). -/

theorem coalesceNew_absorb (a b : Option α) :
    coalesceNew (coalesceNew a b) b = coalesceNew a b := by
  cases b <;> rfl

theorem coalesceNew_self (a : Option α) : coalesceNew a a = a := by
  cases a <;> rfl

theorem merge_lap_absorb (o r : LapData) :
    merge_lap (merge_lap o r) r = merge_lap o r := by
  simp [merge_lap, coalesceNew_absorb]

theorem merge_lap_self (r : LapData) : merge_lap r r = r := by
  simp [merge_lap, coalesceNew_self]

theorem lapKeyEq_merge (o r : LapData) :
    lapKeyEq (merge_lap o r) r = lapKeyEq o r := rfl

theorem lapKeyEq_self (r : LapData) : lapKeyEq r r = true := by
  simp [lapKeyEq]

theorem upsert_lap_idem (db : List LapData) (r : LapData) :
    upsert_lap (upsert_lap db r) r = upsert_lap db r := by
  unfold upsert_lap
  by_cases h : db.any (fun o => lapKeyEq o r)
  · rw [if_pos h]
    have hfun : ((fun o => lapKeyEq o r) ∘
        (fun o => if lapKeyEq o r then merge_lap o r else o)) =
        fun o => lapKeyEq o r := by
      funext o
      by_cases hk : lapKeyEq o r <;> simp [Function.comp, hk, lapKeyEq_merge]
    have hmap : (db.map (fun o => if lapKeyEq o r then merge_lap o r else o)).any
        (fun o => lapKeyEq o r) = true := by
      rw [List.any_map, hfun]; exact h
    rw [if_pos hmap, List.map_map]
    have hfun2 : ((fun o => if lapKeyEq o r then merge_lap o r else o) ∘
        (fun o => if lapKeyEq o r then merge_lap o r else o)) =
        fun o => if lapKeyEq o r then merge_lap o r else o := by
      funext o
      by_cases hk : lapKeyEq o r <;>
        simp [Function.comp, hk, lapKeyEq_merge, merge_lap_absorb]
    rw [hfun2]
  · rw [if_neg h]
    have happ : ((db ++ [r]).any (fun o => lapKeyEq o r)) = true := by
      simp [lapKeyEq_self]
    rw [if_pos happ, List.map_append]
    have hdb : db.map (fun o => if lapKeyEq o r then merge_lap o r else o) = db := by
      have hpt : ∀ o ∈ db, (if lapKeyEq o r then merge_lap o r else o) = o := by
        intro o ho
        have hf : lapKeyEq o r = false := by
          rcases Bool.eq_false_or_eq_true (lapKeyEq o r) with ht | hf
          · exact absurd (List.any_eq_true.mpr ⟨o, ho, ht⟩) h
          · exact hf
        simp [hf]
      calc db.map (fun o => if lapKeyEq o r then merge_lap o r else o)
          = db.map id := List.map_congr_left hpt
        _ = db := List.map_id db
    rw [hdb]
    simp [lapKeyEq_self, merge_lap_self]

theorem upsert_lap_count (db : List LapData) (r : LapData)
    (h : db.countP (fun o => lapKeyEq o r) ≤ 1) :
    (upsert_lap db r).countP (fun o => lapKeyEq o r) = 1 := by
  unfold upsert_lap
  by_cases hany : db.any (fun o => lapKeyEq o r)
  · rw [if_pos hany]
    have hfun : ((fun o => lapKeyEq o r) ∘
        (fun o => if lapKeyEq o r then merge_lap o r else o)) =
        fun o => lapKeyEq o r := by
      funext o
      by_cases hk : lapKeyEq o r <;> simp [Function.comp, hk, lapKeyEq_merge]
    rw [List.countP_map, hfun]
    have hge : 1 ≤ db.countP (fun o => lapKeyEq o r) := by
      rcases List.any_eq_true.mp hany with ⟨o, ho, hko⟩
      calc 1 = [o].countP (fun o => lapKeyEq o r) := by simp [hko]
        _ ≤ db.countP (fun o => lapKeyEq o r) :=
            List.Sublist.countP_le _ ((List.singleton_sublist).mpr ho)
    omega
  · rw [if_neg hany]
    rw [List.countP_append]
    have hz : db.countP (fun o => lapKeyEq o r) = 0 := by
      rw [List.countP_eq_zero]
      intro o ho
      rcases Bool.eq_false_or_eq_true (lapKeyEq o r) with ht | hf
      · exact absurd (List.any_eq_true.mpr ⟨o, ho, ht⟩) hany
      · simp [hf]
    simp [hz, lapKeyEq_self]

theorem dedup_not_seen (key : α → Int) :
    ∀ (items : List α) (seen : List Int),
      ∀ x ∈ deduplicate_by_attr key items seen, ¬ key x ∈ seen := by
  intro items
  induction items with
  | nil => intro seen x hx; simp [deduplicate_by_attr] at hx
  | cons a as ih =>
      intro seen x hx
      by_cases h : seen.contains (key a)
      · rw [deduplicate_by_attr, if_pos h] at hx
        exact ih seen x hx
      · rw [deduplicate_by_attr, if_neg h] at hx
        rcases List.mem_cons.mp hx with hx | hx
        · subst hx
          intro hmem
          exact h (List.elem_eq_true_of_mem hmem)
        · intro hmem
          exact ih (key a :: seen) x hx (by simp [hmem])

theorem dedup_first (key : α → Int) :
    ∀ (items : List α) (seen : List Int),
      ∀ x ∈ deduplicate_by_attr key items seen,
        items.find? (fun y => key y == key x) = some x := by
  intro items
  induction items with
  | nil => intro seen x hx; simp [deduplicate_by_attr] at hx
  | cons a as ih =>
      intro seen x hx
      by_cases h : seen.contains (key a)
      · rw [deduplicate_by_attr, if_pos h] at hx
        have hx' := dedup_not_seen key as seen x hx
        have hmem : key a ∈ seen := List.mem_of_elem_eq_true h
        have hne : (key a == key x) = false := by
          rcases Bool.eq_false_or_eq_true (key a == key x) with ht | hf
          · exact absurd (eq_of_beq ht ▸ hmem) hx'
          · exact hf
        rw [List.find?_cons, hne]
        exact ih seen x hx
      · rw [deduplicate_by_attr, if_neg h] at hx
        rcases List.mem_cons.mp hx with hx | hx
        · subst hx
          rw [List.find?_cons]
          simp
        · have hx' := dedup_not_seen key as (key a :: seen) x hx
          have hne : (key a == key x) = false := by
            rcases Bool.eq_false_or_eq_true (key a == key x) with ht | hf
            · exact absurd (by simp [eq_of_beq ht]) hx'
            · exact hf
          rw [List.find?_cons, hne]
          exact ih (key a :: seen) x hx

theorem dedup_nodup (key : α → Int) :
    ∀ (items : List α) (seen : List Int),
      ((deduplicate_by_attr key items seen).map key).Nodup := by
  intro items
  induction items with
  | nil => intro seen; simp [deduplicate_by_attr]
  | cons a as ih =>
      intro seen
      by_cases h : seen.contains (key a)
      · rw [deduplicate_by_attr, if_pos h]
        exact ih seen
      · rw [deduplicate_by_attr, if_neg h]
        rw [List.map_cons, List.nodup_cons]
        constructor
        · intro hmem
          rcases List.mem_map.mp hmem with ⟨x, hx, hkey⟩
          exact dedup_not_seen key as (key a :: seen) x hx (by simp [hkey])
        · exact ih (key a :: seen)

theorem dedup_cover (key : α → Int) :
    ∀ (items : List α) (seen : List Int),
      ∀ y ∈ items, key y ∈ seen ∨
        ∃ x ∈ deduplicate_by_attr key items seen, key x = key y := by
  intro items
  induction items with
  | nil => intro seen y hy; simp at hy
  | cons a as ih =>
      intro seen y hy
      by_cases h : seen.contains (key a)
      · rw [deduplicate_by_attr, if_pos h]
        rcases List.mem_cons.mp hy with hy | hy
        · subst hy
          exact Or.inl (List.mem_of_elem_eq_true h)
        · exact ih seen y hy
      · rw [deduplicate_by_attr, if_neg h]
        rcases List.mem_cons.mp hy with hy | hy
        · subst hy
          exact Or.inr ⟨y, List.mem_cons_self _ _, rfl⟩
        · rcases ih (key a :: seen) y hy with hseen | ⟨x, hx, hkey⟩
          · rcases List.mem_cons.mp hseen with heq | hseen
            · exact Or.inr ⟨a, List.mem_cons_self _ _, heq.symm⟩
            · exact Or.inl hseen
          · exact Or.inr ⟨x, List.mem_cons_of_mem _ hx, hkey⟩

theorem splitLinesAux_join :
    ∀ (l acc : List Char), (splitLinesAux acc l).flatten = acc.reverse ++ l := by
  intro l
  induction l with
  | nil =>
      intro acc
      rw [splitLinesAux]
      by_cases h : acc.isEmpty
      · rw [if_pos h]
        simp [List.isEmpty_iff.mp h]
      · rw [if_neg h]
        simp
  | cons c rest ih =>
      intro acc
      rw [splitLinesAux]
      by_cases h : c = '\n'
      · rw [if_pos h]
        subst h
        simp [List.flatten, ih []]
      · rw [if_neg h]
        rw [ih (c :: acc)]
        simp

theorem splitLines_join (cs : List Char) : (splitLines cs).flatten = cs := by
  simpa using splitLinesAux_join cs []

theorem tailRun_join :
    ∀ (chunks : List (List Char)) (file : List Char),
      ((tailRun file chunks).map List.flatten).flatten = chunks.flatten := by
  intro chunks
  induction chunks with
  | nil => intro file; simp [tailRun]
  | cons c cs ih =>
      intro file
      rw [tailRun]
      simp only [get_new_data, List.map_cons, List.flatten]
      rw [List.drop_left, splitLines_join, ih (file ++ c)]

theorem TM_pure_run (a : α) (ctx : Ctx) : (pure a : TM α).run ctx = (.ok a, ctx) :=
  rfl

theorem TM_bind_run (x : TM α) (f : α → TM β) (ctx : Ctx) :
    (x >>= f).run ctx =
      match x.run ctx with
      | (.ok a, c) => (f a).run c
      | (.error e, c) => (.error e, c) := by
  rcases h : x.run ctx with ⟨res, c⟩
  cases res with
  | ok a =>
      simp only [Bind.bind, ExceptT.bind, ExceptT.bindCont, ExceptT.mk, ExceptT.run,
        StateT.bind] at h ⊢
      change (match x ctx with | (a, s) => _) = _
      rw [show x ctx = (Except.ok a, c) from h]
  | error e =>
      simp only [Bind.bind, ExceptT.bind, ExceptT.bindCont, ExceptT.mk, ExceptT.run,
        StateT.bind] at h ⊢
      change (match x ctx with | (a, s) => _) = _
      rw [show x ctx = (Except.error e, c) from h]
      rfl

theorem catchAll_run (body : TM Unit) (ctx : Ctx) :
    ∃ ctx2, (catchAll body).run ctx = (.ok (), ctx2) := by
  rcases h : body.run ctx with ⟨res, c⟩
  refine ⟨c, ?_⟩
  show (match body.run ctx with
    | (.ok a, c) => (Except.ok a, c)
    | (.error _, c) => (Except.ok (), c)) = (Except.ok (), c)
  rw [h]
  cases res <;> rfl

theorem runLines_ok (now : Datetime) :
    ∀ (ls : List String) (ctx : Ctx),
      ∃ ctx2, (runLines now ls).run ctx = (.ok (), ctx2) := by
  intro ls
  induction ls with
  | nil =>
      intro ctx
      exact ⟨ctx, rfl⟩
  | cons l ls ih =>
      intro ctx
      rcases catchAll_run (process_line now l) ctx with ⟨ctx1, h1⟩
      rcases ih ctx1 with ⟨ctx2, h2⟩
      refine ⟨ctx2, ?_⟩
      show ((catchAll (process_line now l)) >>= fun _ => runLines now ls).run ctx =
        (.ok (), ctx2)
      rw [TM_bind_run, h1]
      exact h2

theorem process_data_batch_ok (now : Datetime) (lines : List String) :
    ∃ r, process_data_batch now lines = .ok r := by
  unfold process_data_batch
  by_cases h : lines.isEmpty
  · exact ⟨Option.none, by rw [if_pos h]⟩
  · rw [if_neg h]
    rcases runLines_ok now lines initCtx with ⟨ctx2, h2⟩
    exact ⟨some (dedupStep ctx2.res), by rw [h2]⟩

/-! Claim theorems. -/

/-- Claim C1, counterexample: a batch with two `DriverList` lines for
driver 44 carrying teams `A` then `B` yields a one-element drivers list
whose team equals the EARLIER record's team `A`, not the later `B` —
`_deduplicate_by_attr` keeps the first occurrence per key, so the claimed
last-write-wins policy is false. -/
theorem c1_counterexample :
    process_data_batch epochNow [driverLineTeamA, driverLineTeamB] =
      .ok (some { emptyBatch with drivers := [driverRecTeamA] }) ∧
    driverRecTeamA.team = .str "A" ∧ PyVal.str "A" ≠ PyVal.str "B" :=
  ⟨by decide, rfl, by decide⟩

/-- Claim C1 (amended): for every batch, the deduplicated `drivers` (resp.
`sessions`) collection contains exactly one record per key — pairwise
distinct keys, every input key represented — and the kept record is the
FIRST occurrence in input order (earlier events win); in particular the
two-line team batch keeps the earlier team `A`. -/
theorem c1_amended_thm {α : Type} (key : α → Int) (items : List α) :
    ((deduplicate_by_attr key items []).map key).Nodup ∧
    (∀ x ∈ deduplicate_by_attr key items [],
        items.find? (fun y => key y == key x) = some x) ∧
    (∀ y ∈ items, ∃ x ∈ deduplicate_by_attr key items [], key x = key y) ∧
    process_data_batch epochNow [driverLineTeamA, driverLineTeamB] =
      .ok (some { emptyBatch with drivers := [driverRecTeamA] }) := by
  refine ⟨dedup_nodup key items [], dedup_first key items [], ?_, by decide⟩
  intro y hy
  rcases dedup_cover key items [] y hy with hseen | h
  · simp at hseen
  · exact h

/-- Claim C2, counterexample: upserting a partial update whose `timestamp`
is null onto a stored row with a non-null timestamp nulls the stored
timestamp out — the `ON CONFLICT` clause assigns `EXCLUDED.timestamp`
unconditionally instead of coalescing, so COALESCE semantics do not hold on
every non-key column.  (The lap time is left intact, as claimed.) -/
theorem c2_counterexample :
    load_lap_data [lapRowStored] [lapRecPartial] =
      [⟨44, 12, some ⟨91234, 1000⟩, some ⟨30500, 1000⟩, Option.none,
        Option.none, Option.none, Option.none⟩] ∧
    lapRowStored.timestamp = some naiveNoon ∧
    lapRecPartial.timestamp = Option.none :=
  ⟨by decide, rfl, rfl⟩

/-- Claim C2 (amended): the lap upsert merges with COALESCE semantics on
every non-key column except `timestamp` (which the incoming value always
overwrites): an incoming null never overwrites a stored non-null lap time,
sector time or speed trap; applying the same batch twice equals applying it
once; and after the upsert exactly one row holds the key. -/
theorem c2_amended_thm (db : List LapData) (o r : LapData)
    (hcount : db.countP (fun x => lapKeyEq x r) ≤ 1) :
    ((r.lap_time = Option.none → (merge_lap o r).lap_time = o.lap_time) ∧
     (r.sector_1_time = Option.none →
        (merge_lap o r).sector_1_time = o.sector_1_time) ∧
     (r.sector_2_time = Option.none →
        (merge_lap o r).sector_2_time = o.sector_2_time) ∧
     (r.sector_3_time = Option.none →
        (merge_lap o r).sector_3_time = o.sector_3_time) ∧
     (r.speed_trap = Option.none → (merge_lap o r).speed_trap = o.speed_trap)) ∧
    (merge_lap o r).timestamp = r.timestamp ∧
    load_lap_data (load_lap_data db [r]) [r] = load_lap_data db [r] ∧
    (load_lap_data db [r]).countP (fun x => lapKeyEq x r) = 1 := by
  refine ⟨⟨?_, ?_, ?_, ?_, ?_⟩, rfl, ?_, ?_⟩
  · intro h; simp [merge_lap, coalesceNew, h]
  · intro h; simp [merge_lap, coalesceNew, h]
  · intro h; simp [merge_lap, coalesceNew, h]
  · intro h; simp [merge_lap, coalesceNew, h]
  · intro h; simp [merge_lap, coalesceNew, h]
  · simpa [load_lap_data] using upsert_lap_idem db r
  · simpa [load_lap_data] using upsert_lap_count db r hcount

/-- Claim C2 witness: the amended theorem applied to the stored row and the
partial update of the concrete scenario. -/
theorem c2_witness :
    load_lap_data (load_lap_data [lapRowStored] [lapRecPartial]) [lapRecPartial] =
      load_lap_data [lapRowStored] [lapRecPartial] ∧
    (load_lap_data [lapRowStored] [lapRecPartial]).countP
      (fun x => lapKeyEq x lapRecPartial) = 1 :=
  ⟨(c2_amended_thm [lapRowStored] lapRowStored lapRecPartial (by decide)).2.2.1,
   (c2_amended_thm [lapRowStored] lapRowStored lapRecPartial (by decide)).2.2.2⟩

/-- Claim C3, counterexample: with the file first containing the
unterminated text `ab` and then completed to `abc` plus newline, the first
`get_new_data` call returns the partial line `ab` and advances the offset
to 2 — past content that was not a complete line — and the second call
returns only the fragment `c\n`: the line `abc\n` never reappears whole. -/
theorem c3_counterexample :
    tailRun [] [['a', 'b'], ['c', '\n']] = [[['a', 'b']], [['c', '\n']]] ∧
    get_new_data ['a', 'b'] 0 = ([['a', 'b']], 2) ∧
    ['a', 'b', 'c', '\n'] ∉ [[ 'c', '\n']] :=
  ⟨by decide, by decide, by decide⟩

/-- Claim C3 (amended): for a file written in appended chunks with one
`get_new_data` call after each append, the concatenation of all returned
lines over all calls equals the full file content — no byte is dropped or
duplicated — but a line written across a call boundary is returned in two
fragments (the offset advances past partial trailing lines) rather than
reappearing whole. -/
theorem c3_amended_thm (chunks : List (List Char)) :
    ((tailRun [] chunks).map List.flatten).flatten = chunks.flatten :=
  tailRun_join chunks []

/-- Claim C4, counterexample: the `F1DataTransformer` weather handler emits
`rainfall` as the Python boolean `True` for a `"Rainfall": "true"` payload,
and `PostgreSQLLoader._load_weather` hands that boolean to the store — the
value is not the float `1.0`.  (The float normalisation happens only on the
`WeatherDataProcessor` path of `main.py`.) -/
theorem c4_counterexample :
    process_data_batch epochNow [weatherLineJson] =
      .ok (some { emptyBatch with weather := [weatherRecJson] }) ∧
    weatherRecJson.rainfall = true ∧
    (pg_weather_row weatherRecJson).rainfall = PyVal.bool true ∧
    PyVal.bool true ≠ PyVal.float (.ofInt 1) :=
  ⟨by decide, rfl, rfl, by decide⟩

/-- Claim C4 (amended): on the `WeatherDataProcessor` path (`main.py`),
which ingests the 3-element-list wire shape, a boolean-like `Rainfall`
value is normalised to the float `1.0`/`0.0` by `_parse_numeric`, and the
example line yields exactly one inserted weather row with
`air_temp = 23.5` and `rainfall = 1.0`; the `F1DataTransformer` path
instead stores a boolean on its `Weather` record. -/
theorem c4_amended_thm :
    main_loop_line 7 weatherLineTriple epochNow = (some weatherRowTriple, 1) ∧
    weatherRowTriple.air_temp = some ⟨235, 10⟩ ∧
    PyFloat.toRat ⟨235, 10⟩ = mkRat 47 2 ∧
    weatherRowTriple.rainfall = some ⟨1, 1⟩ ∧
    PyFloat.toRat ⟨1, 1⟩ = mkRat 1 1 ∧
    (∀ b : Bool, parse_numeric (.bool b) = .ok (some (.ofInt (if b then 1 else 0)))) ∧
    parse_numeric (.str "true") = .ok (some (.ofInt 1)) ∧
    parse_numeric (.str "false") = .ok (some (.ofInt 0)) :=
  ⟨by decide, rfl, by decide, rfl, by decide, by decide, by decide, by decide⟩

/-- Claim C5, counterexample: a race-control event with the zone-aware feed
timestamp `2024-05-01T12:00:00Z` produces a `RaceControl` record whose
timestamp keeps the `+00:00` offset (`_parse_timestamp` never strips it),
and `SupabaseLoader._load_race_control_messages` hands exactly that value
to the store — a persisted record that retains timezone information. -/
theorem c5_counterexample :
    process_data_batch epochNow [raceControlLine] =
      .ok (some { emptyBatch with race_control := [raceControlRec] }) ∧
    supabase_race_control_ts raceControlRec = awareNoon ∧
    awareNoon.tzOffsetMinutes = some 0 :=
  ⟨by decide, rfl, rfl⟩

/-- Claim C5 (amended): zone stripping is not uniform.  The Supabase
weather, driver-position and car-telemetry row builders always hand a naive
timestamp to the store, but the race-control row builder and every
`PostgreSQLLoader` path pass the record's timestamp through unchanged — so
records persisted on those paths retain the zone offset that
`_parse_timestamp` keeps. -/
theorem c5_amended_thm (w : Weather) (p : Position) (t : TelemetryData)
    (rc : RaceControl) (dt : Datetime) :
    (supabase_weather_ts w).tzOffsetMinutes = Option.none ∧
    (supabase_position_ts p).tzOffsetMinutes = Option.none ∧
    (supabase_telemetry_ts t).tzOffsetMinutes = Option.none ∧
    (stripTzIfAware dt).tzOffsetMinutes = Option.none ∧
    supabase_race_control_ts rc = rc.timestamp ∧
    (pg_weather_row w).timestamp = w.timestamp := by
  have hs : ∀ d : Datetime, (stripTzIfAware d).tzOffsetMinutes = Option.none := by
    intro d
    unfold stripTzIfAware replaceTzNone
    by_cases h : d.tzOffsetMinutes.isSome
    · rw [if_pos h]
    · rw [if_neg h]
      exact Option.not_isSome_iff_eq_none.mp h
  exact ⟨hs _, hs _, hs _, hs _, rfl, rfl⟩

/-- Claim C6, counterexample: `_parse_float` and `_parse_lap_time` raise on
an integer at the `float()` overflow boundary `2 ^ 1024 - 2 ^ 970` —
`float(huge_int)` raises `OverflowError`, which the
`except (ValueError, TypeError)` clauses do not catch — and `_parse_int`
raises on an infinite float, where `int()` raises `OverflowError`; so the
numeric parsers do not return `None` for every input of any type. -/
theorem c6_counterexample :
    parse_float (.int (Int.ofNat floatOverflowBound)) = .error .overflowError ∧
    parse_lap_time (.int (Int.ofNat floatOverflowBound)) = .error .overflowError ∧
    parse_int (.float ⟨1, 0⟩) = .error .overflowError :=
  ⟨by decide, by decide, by decide⟩

/-- A value within `floatSafe` sends `float()` to a result or to one of the
two caught exception classes. -/
theorem pyFloatOf_safe (v : PyVal) (h : floatSafe v = true) :
    (∃ q, pyFloatOf v = .ok q) ∨ pyFloatOf v = .error .valueError ∨
      pyFloatOf v = .error .typeError := by
  cases v with
  | int n =>
      have hb : ¬ (n.natAbs ≥ floatOverflowBound) := by
        simp only [floatSafe, decide_eq_true_eq] at h
        omega
      exact Or.inl ⟨.ofInt n, by simp only [pyFloatOf]; rw [if_neg hb]⟩
  | float q => exact Or.inl ⟨q, rfl⟩
  | bool b => exact Or.inl ⟨_, rfl⟩
  | none => exact Or.inr (Or.inr rfl)
  | list xs => exact Or.inr (Or.inr rfl)
  | dict kvs => exact Or.inr (Or.inr rfl)
  | str s =>
      cases hs : pyFloatOfStr s with
      | some q => exact Or.inl ⟨q, by simp [pyFloatOf, hs]⟩
      | none => exact Or.inr (Or.inl (by simp [pyFloatOf, hs]))

/-- Python `int()` on any parser-safe value lands in a result or one of the
two caught exception classes; the only escape, the `OverflowError` on an
infinite float, is excluded by `floatSafe` (an int is never an overflow for
`int()`, however large). -/
theorem pyIntOf_cases (v : PyVal) (h : floatSafe v = true) :
    (∃ n, pyIntOf v = .ok n) ∨ pyIntOf v = .error .valueError ∨
      pyIntOf v = .error .typeError := by
  cases v with
  | int n => exact Or.inl ⟨n, rfl⟩
  | float q =>
      simp only [floatSafe, decide_eq_true_eq] at h
      by_cases hd : q.den = 0
      · have hn : q.num = 0 := by
          rcases h with h | h
          · exact absurd hd h
          · exact h
        refine Or.inr (Or.inl ?_)
        simp only [pyIntOf]
        rw [if_pos hd, if_pos hn]
      · refine Or.inl ⟨q.trunc, ?_⟩
        simp only [pyIntOf]
        rw [if_neg hd]
  | bool b => exact Or.inl ⟨_, rfl⟩
  | none => exact Or.inr (Or.inr rfl)
  | list xs => exact Or.inr (Or.inr rfl)
  | dict kvs => exact Or.inr (Or.inr rfl)
  | str s =>
      cases hs : pyIntOfStr s with
      | some n => exact Or.inl ⟨n, by simp [pyIntOf, hs]⟩
      | none => exact Or.inr (Or.inl (by simp [pyIntOf, hs]))

/-- Claim C6 (amended): for every input value except the ints at or beyond
the `float()` overflow boundary `2 ^ 1024 - 2 ^ 970` (where `float()`
raises `OverflowError` through the uncatching `except` clauses of
`_parse_float` and `_parse_lap_time`) and the infinite floats (where
`int()` raises `OverflowError` through the `except` clause of
`_parse_int`), the numeric parsers return without raising, and an
unparsable string resolves to the explicit unknown `None` — never to zero
or any other guessed numeric default; the non-finite literal strings parse
as floats (`float("inf")`, `float("nan")`) rather than resolving to `None`,
while `int("inf")` is a caught `ValueError` and so resolves to `None`. -/
theorem c6_amended_thm (v : PyVal) (h : floatSafe v = true) :
    (∃ r, parse_float v = .ok r) ∧
    (∃ r, parse_int v = .ok r) ∧
    (∃ r, parse_lap_time v = .ok r) ∧
    (∀ s : String, pyFloatOfStr s = Option.none →
        parse_float (.str s) = .ok Option.none) ∧
    (∀ s : String, pyIntOfStr s = Option.none →
        parse_int (.str s) = .ok Option.none) ∧
    parse_float (.str "inf") = .ok (some ⟨1, 0⟩) ∧
    parse_float (.str "nan") = .ok (some ⟨0, 0⟩) ∧
    parse_int (.str "inf") = .ok Option.none := by
  refine ⟨?_, ?_, ?_, ?_, ?_, by decide, by decide, by decide⟩
  · unfold parse_float
    by_cases hn : isPyNone v ∨ pyEqb v (.str "")
    · exact ⟨Option.none, by rw [if_pos hn]⟩
    · rw [if_neg hn]
      rcases pyFloatOf_safe v h with ⟨q, hq⟩ | hq | hq <;> rw [hq]
      · exact ⟨some q, rfl⟩
      · exact ⟨Option.none, rfl⟩
      · exact ⟨Option.none, rfl⟩
  · unfold parse_int
    by_cases hn : isPyNone v ∨ pyEqb v (.str "")
    · exact ⟨Option.none, by rw [if_pos hn]⟩
    · rw [if_neg hn]
      rcases pyIntOf_cases v h with ⟨n, hq⟩ | hq | hq <;> rw [hq]
      · exact ⟨some n, rfl⟩
      · exact ⟨Option.none, rfl⟩
      · exact ⟨Option.none, rfl⟩
  · unfold parse_lap_time
    by_cases hn : (!pyTruthy v) = true ∨ pyEqb v (.str "")
    · exact ⟨Option.none, by rw [if_pos hn]⟩
    · rw [if_neg hn]
      rcases pyFloatOf_safe v h with ⟨q, hq⟩ | hq | hq <;> rw [hq]
      · exact ⟨some q, rfl⟩
      · cases v with
        | str s =>
            cases hr : lapTimeRegex s with
            | none => exact ⟨Option.none, by simp [hr]⟩
            | some p =>
                exact ⟨some ((PyFloat.ofInt ((p.1 * 60 : Nat) : Int)).add p.2),
                  by simp [hr]⟩
        | none => exact ⟨Option.none, rfl⟩
        | bool b => exact ⟨Option.none, rfl⟩
        | int n => exact ⟨Option.none, rfl⟩
        | float q => exact ⟨Option.none, rfl⟩
        | list xs => exact ⟨Option.none, rfl⟩
        | dict kvs => exact ⟨Option.none, rfl⟩
      · cases v with
        | str s =>
            cases hr : lapTimeRegex s with
            | none => exact ⟨Option.none, by simp [hr]⟩
            | some p =>
                exact ⟨some ((PyFloat.ofInt ((p.1 * 60 : Nat) : Int)).add p.2),
                  by simp [hr]⟩
        | none => exact ⟨Option.none, rfl⟩
        | bool b => exact ⟨Option.none, rfl⟩
        | int n => exact ⟨Option.none, rfl⟩
        | float q => exact ⟨Option.none, rfl⟩
        | list xs => exact ⟨Option.none, rfl⟩
        | dict kvs => exact ⟨Option.none, rfl⟩
  · intro s hs
    unfold parse_float
    by_cases hn : isPyNone (PyVal.str s) = true ∨ pyEqb (.str s) (.str "")
    · rw [if_pos hn]
    · rw [if_neg hn]
      simp [pyFloatOf, hs]
  · intro s hs
    unfold parse_int
    by_cases hn : isPyNone (PyVal.str s) = true ∨ pyEqb (.str s) (.str "")
    · rw [if_pos hn]
    · rw [if_neg hn]
      simp [pyIntOf, hs]

/-- Claim C6 witness: the amended theorem at the unparsable string `abc`. -/
theorem c6_amended_witness :
    (∃ r, parse_float (.str "abc") = .ok r) ∧
    (∃ r, parse_int (.str "abc") = .ok r) ∧
    (∃ r, parse_lap_time (.str "abc") = .ok r) :=
  ⟨(c6_amended_thm (.str "abc") (by decide)).1,
   (c6_amended_thm (.str "abc") (by decide)).2.1,
   (c6_amended_thm (.str "abc") (by decide)).2.2.1⟩

/-- Claim C7 (confirmed): `process_data_batch` never raises — every
per-line failure is absorbed by the per-line `except` clauses — and a batch
containing the malformed line still returns normally with the malformed
line's contribution omitted and the remaining valid line processed. -/
theorem c7_thm :
    (∀ (now : Datetime) (lines : List String),
        ∃ r, process_data_batch now lines = .ok r) ∧
    process_data_batch epochNow ["not a valid structure", driverLineTeamA] =
      .ok (some { emptyBatch with drivers := [driverRecTeamA] }) :=
  ⟨fun now lines => process_data_batch_ok now lines, by decide⟩

/-- Claim C9, counterexample: on an undecodable payload (the one-character
string `A` is not valid base64) the payload decoder `decode_compressed_data`
propagates the exception — it logs and re-raises rather than returning a
sentinel no-data outcome. -/
theorem c9_counterexample :
    decode_compressed_data (fun bs => .ok bs) (.str "A") =
      .error .binasciiError := by decide

/-- Claim C9 (amended): the decoder re-raises on failure, and it is the
caller `process_telemetry_data` that catches the exception and returns the
sentinel count 0 with no rows inserted, so the single event is discarded
and the rest of the batch continues. -/
theorem c9_amended_thm (inflate : List Nat → Except PyErr (List Nat))
    (session_id : Int) (enc : PyVal) (s : String) (now : Datetime) (e : PyErr)
    (h : decode_compressed_data inflate enc = .error e) :
    process_telemetry_data inflate session_id (.str "CarData.z") enc
      (.str s) now = .ok ([], 0) := by
  unfold process_telemetry_data
  rw [show (!pyEqb (.str "CarData.z") (.str "CarData.z")) = false from by decide]
  simp only [Bool.false_eq_true, if_false]
  by_cases ht : pyTruthy (PyVal.str s) = true
  · rw [if_pos ht]
    cases hf : fromisoformat (String.mk (replaceZChars s.data)) with
    | ok aware => simp [hf, h]; rfl
    | error e2 => simp [hf, h]; rfl
  · rw [if_neg ht]
    simp [h]; rfl

/-- Claim C9 witness: the amended theorem at the undecodable payload `A`
with the identity codec. -/
theorem c9_amended_witness :
    process_telemetry_data (fun bs => .ok bs) 1 (.str "CarData.z") (.str "A")
      (.str "") epochNow = .ok ([], 0) :=
  c9_amended_thm (fun bs => .ok bs) 1 (.str "A") "" epochNow .binasciiError
    (by decide)

/-- Claim C10 (confirmed): an empty batch returns the empty dict (no entity
keys at all, modelled as `Option.none`), while every non-empty batch — even
all-blank or all-malformed — returns the full seven-collection result (the
`BatchResult` structure models the seven keys, each a possibly empty
list). -/
theorem c10_thm :
    (∀ now : Datetime, process_data_batch now [] = .ok Option.none) ∧
    (∀ (now : Datetime) (lines : List String), lines ≠ [] →
        ∃ r, process_data_batch now lines = .ok (some r)) := by
  constructor
  · intro now
    rfl
  · intro now lines hne
    rcases runLines_ok now lines initCtx with ⟨ctx2, h2⟩
    refine ⟨dedupStep ctx2.res, ?_⟩
    unfold process_data_batch
    rw [if_neg (by simpa [List.isEmpty_iff] using hne)]
    rw [h2]

/-- Claim C10 witness: the non-empty case at a one-line batch whose line is
malformed. -/
theorem c10_witness :
    ∃ r, process_data_batch epochNow ["x"] = .ok (some r) :=
  c10_thm.2 epochNow ["x"] (by decide)

/-! Round-trip lemmas for the compact JSON encoder and the structured-value
reader (claim C8 machinery). -/

theorem digitChar_toNat (d : Nat) (h : d < 10) : (digitChar d).toNat = 48 + d := by
  interval_cases d <;> rfl

theorem digitChar_isDigit (d : Nat) (h : d < 10) : (digitChar d).isDigit = true := by
  interval_cases d <;> rfl

theorem digitsVal_append (ds : List Char) (c : Char) :
    digitsVal (ds ++ [c]) = 10 * digitsVal ds + (c.toNat - 48) := by
  unfold digitsVal
  rw [List.foldl_append]
  simp [Nat.mul_comm]

theorem natDigitsAux_spec :
    ∀ (fuel n : Nat), n < fuel →
      natDigitsAux fuel n ≠ [] ∧
      (∀ c ∈ natDigitsAux fuel n, c.isDigit = true) ∧
      digitsVal (natDigitsAux fuel n) = n := by
  intro fuel
  induction fuel with
  | zero => intro n h; omega
  | succ f ih =>
      intro n h
      rw [natDigitsAux]
      by_cases hn : n < 10
      · rw [if_pos hn]
        refine ⟨by simp, ?_, ?_⟩
        · intro c hc
          rcases List.mem_singleton.mp hc with rfl
          exact digitChar_isDigit n hn
        · show digitsVal ([] ++ [digitChar n]) = n
          rw [digitsVal_append, digitChar_toNat n hn]
          simp [digitsVal]
      · rw [if_neg hn]
        have hlt : n / 10 < f := by omega
        rcases ih (n / 10) hlt with ⟨hne, hdig, hval⟩
        refine ⟨by simp, ?_, ?_⟩
        · intro c hc
          rcases List.mem_append.mp hc with hc | hc
          · exact hdig c hc
          · rcases List.mem_singleton.mp hc with rfl
            exact digitChar_isDigit (n % 10) (Nat.mod_lt _ (by omega))
        · rw [digitsVal_append, hval, digitChar_toNat (n % 10) (Nat.mod_lt _ (by omega))]
          omega

theorem natDigits_ne_nil (n : Nat) : natDigits n ≠ [] :=
  (natDigitsAux_spec (n + 1) n (by omega)).1

theorem natDigits_isDigit (n : Nat) : ∀ c ∈ natDigits n, c.isDigit = true :=
  (natDigitsAux_spec (n + 1) n (by omega)).2.1

theorem natDigits_val (n : Nat) : digitsVal (natDigits n) = n :=
  (natDigitsAux_spec (n + 1) n (by omega)).2.2

theorem takeWhile_all_append (p : Char → Bool) :
    ∀ (ds rest : List Char), (∀ c ∈ ds, p c = true) →
      (match rest with | [] => True | c :: _ => p c = false) →
      (ds ++ rest).takeWhile p = ds := by
  intro ds
  induction ds with
  | nil =>
      intro rest _ hr
      cases rest with
      | nil => rfl
      | cons c tl => simp [List.takeWhile, hr]
  | cons d ds ih =>
      intro rest hds hr
      have hd : p d = true := hds d (by simp)
      simp only [List.cons_append, List.takeWhile, hd]
      rw [show ds.append rest = ds ++ rest from rfl]
      rw [ih rest (fun c hc => hds c (by simp [hc])) hr]

theorem parseNumberBody_nat (n : Nat) (rest : List Char)
    (hb : numBoundary rest = true) :
    parseNumberBody (natDigits n ++ rest) = some (.int n, rest) := by
  have htake : (natDigits n ++ rest).takeWhile Char.isDigit = natDigits n := by
    apply takeWhile_all_append _ _ _ (natDigits_isDigit n)
    cases rest with
    | nil => trivial
    | cons c tl =>
        simp only [numBoundary, Bool.and_eq_true, Bool.not_eq_true'] at hb
        exact hb.1.1.1
  have hdrop : (natDigits n ++ rest).drop (natDigits n).length = rest :=
    List.drop_left _ _
  unfold parseNumberBody
  simp only [htake, hdrop]
  rw [if_neg (natDigits_ne_nil n)]
  cases rest with
  | nil =>
      simp [natDigits_val]
  | cons c tl =>
      simp only [numBoundary, Bool.and_eq_true, Bool.not_eq_true',
        decide_eq_false_iff_not] at hb
      obtain ⟨⟨⟨hcd, hcdot⟩, hce⟩, hcE⟩ := hb
      rw [show (match c :: tl with
        | '.' :: rest => ((rest.takeWhile Char.isDigit : List Char),
            rest.drop (rest.takeWhile Char.isDigit).length, true)
        | _ => (([] : List Char), c :: tl, false)) =
          (([] : List Char), c :: tl, false) from ?_]
      · simp only []
        rw [if_neg (by simp)]
        rw [if_neg (show ¬(c = 'e' ∨ c = 'E') from by simp [hce, hcE])]
        simp [natDigits_val]
      · split
        · rename_i heq
          rw [List.cons.injEq] at heq
          exact absurd heq.1 hcdot
        · rfl

theorem skipWs_cons (c : Char) (l : List Char) (h : isWsChar c = false) :
    skipWs (c :: l) = c :: l := by
  rw [skipWs, h]
  rfl

theorem escapeChars_append (a b : List Char) :
    escapeChars (a ++ b) = escapeChars a ++ escapeChars b := by
  induction a with
  | nil => rfl
  | cons c tl ih =>
      by_cases h : c = '"' ∨ c = '\\'
      · simp only [List.cons_append, escapeChars, if_pos h, List.append_eq]
        rw [ih]
      · simp only [List.cons_append, escapeChars, if_neg h, List.append_eq]
        rw [ih]

theorem parseStrBody_rt :
    ∀ (body rest : List Char) (fuel : Nat),
      (escapeChars body).length + 1 ≤ fuel →
      parseStrBody '"' fuel (escapeChars body ++ '"' :: rest) = some (body, rest) := by
  intro body
  induction body with
  | nil =>
      intro rest fuel hf
      match fuel, hf with
      | f + 1, _ =>
          rw [escapeChars]
          simp [parseStrBody]
  | cons c tl ih =>
      intro rest fuel hf
      by_cases h : c = '"' ∨ c = '\\'
      · rw [escapeChars, if_pos h] at hf ⊢
        match fuel, hf with
        | f + 1, hf =>
            have hrec : parseStrBody '"' f (escapeChars tl ++ '"' :: rest) =
                some (tl, rest) := by
              apply ih
              simp only [List.length_cons] at hf
              omega
            rcases h with h | h <;> subst h <;> simp [parseStrBody, hrec]
      · rw [escapeChars, if_neg h] at hf ⊢
        match fuel, hf with
        | f + 1, hf =>
            simp only [List.cons_append, parseStrBody]
            rw [if_neg (by rintro rfl; exact h (Or.inl rfl))]
            rw [if_neg (by rintro rfl; exact h (Or.inr rfl))]
            have hrec : parseStrBody '"' f (escapeChars tl ++ '"' :: rest) =
                some (tl, rest) := by
              apply ih
              simp only [List.length_cons] at hf
              omega
            simp only [List.append_eq]
            rw [hrec]
            rfl

theorem digit_char_props (c : Char) (h : c.isDigit = true) :
    isWsChar c = false ∧ c ≠ ']' ∧ c ≠ '\x7d' := by
  refine ⟨?_, ?_, ?_⟩
  · rcases Bool.eq_false_or_eq_true (isWsChar c) with ht | hf
    · exfalso
      simp only [isWsChar, decide_eq_true_eq] at ht
      rcases ht with rfl | rfl | rfl | rfl <;> exact absurd h (by decide)
    · exact hf
  · rintro rfl
    exact absurd h (by decide)
  · rintro rfl
    exact absurd h (by decide)

theorem printVal_cons (v : PyVal) :
    ∃ c cs, printVal v = c :: cs ∧ isWsChar c = false ∧ c ≠ ']' ∧ c ≠ '\x7d' := by
  cases v with
  | none => exact ⟨'n', _, rfl, by decide⟩
  | bool b =>
      cases b with
      | true => exact ⟨'t', _, rfl, by decide⟩
      | false => exact ⟨'f', _, rfl, by decide⟩
  | float q => exact ⟨'0', _, rfl, by decide⟩
  | str s => exact ⟨'"', _, rfl, by decide⟩
  | list xs =>
      cases xs with
      | nil => exact ⟨'[', _, rfl, by decide⟩
      | cons x tl => exact ⟨'[', _, rfl, by decide⟩
  | dict kvs =>
      cases kvs with
      | nil => exact ⟨'\x7b', _, rfl, by decide⟩
      | cons kv tl => exact ⟨'\x7b', _, rfl, by decide⟩
  | int n =>
      show ∃ c cs,
        (if n < 0 then '-' :: natDigits n.natAbs else natDigits n.natAbs) = c :: cs ∧ _
      by_cases hn : n < 0
      · rw [if_pos hn]
        exact ⟨'-', _, rfl, by decide, by decide, by decide⟩
      · rw [if_neg hn]
        cases hh : natDigits n.natAbs with
        | nil => exact absurd hh (natDigits_ne_nil _)
        | cons c cs =>
            have hc : c.isDigit = true :=
              natDigits_isDigit n.natAbs c (by rw [hh]; simp)
            rcases digit_char_props c hc with ⟨h1, h2, h3⟩
            exact ⟨c, cs, rfl, h1, h2, h3⟩

theorem printVal_ne_nil (v : PyVal) : printVal v ≠ [] := by
  rcases printVal_cons v with ⟨c, cs, hpv, _⟩
  rw [hpv]
  simp

theorem printVal_length_pos (v : PyVal) : 1 ≤ (printVal v).length := by
  rcases printVal_cons v with ⟨c, cs, hpv, _⟩
  rw [hpv]
  simp

theorem printTail_mem_le (tl : List PyVal) :
    ∀ e ∈ tl, (printVal e).length ≤ (printTail tl).length := by
  induction tl with
  | nil => intro e he; simp at he
  | cons a tl ih =>
      intro e he
      rw [printTail]
      rcases List.mem_cons.mp he with rfl | he
      · simp
        omega
      · have := ih e he
        simp
        omega

theorem printPairsTail_mem_le (kvs : List (String × PyVal)) :
    ∀ kv ∈ kvs, (printVal kv.2).length ≤ (printPairsTail kvs).length := by
  induction kvs with
  | nil => intro kv h; simp at h
  | cons a kvs ih =>
      intro kv h
      rw [printPairsTail]
      rcases List.mem_cons.mp h with rfl | h
      · simp
        omega
      · have := ih kv h
        simp
        omega

theorem jsonWFList_mem (tl : List PyVal) (h : jsonWFList tl = true) :
    ∀ e ∈ tl, jsonWF e = true := by
  induction tl with
  | nil => intro e he; simp at he
  | cons a tl ih =>
      rw [jsonWFList, Bool.and_eq_true] at h
      intro e he
      rcases List.mem_cons.mp he with rfl | he
      · exact h.1
      · exact ih h.2 e he

theorem jsonWFDict_mem (kvs : List (String × PyVal)) (h : jsonWFDict kvs = true) :
    ∀ kv ∈ kvs, jsonWF kv.2 = true := by
  induction kvs with
  | nil => intro kv hk; simp at hk
  | cons a kvs ih =>
      rw [jsonWFDict, Bool.and_eq_true] at h
      intro kv hk
      rcases List.mem_cons.mp hk with rfl | hk
      · exact h.1
      · exact ih h.2 kv hk

theorem keysFresh_split (k : String) (w : PyVal) (kvs : List (String × PyVal)) :
    ∀ (acc : List (String × PyVal)),
      keysFresh (acc ++ (k, w) :: kvs) = true →
      acc.any (fun kv => kv.1 = k) = false := by
  intro acc
  induction acc with
  | nil => intro _; rfl
  | cons a acc ih =>
      intro h
      rw [List.cons_append, keysFresh, Bool.and_eq_true] at h
      rcases h with ⟨hnot, hrest⟩
      rw [Bool.not_eq_true', List.any_eq_false] at hnot
      have hk : ¬ (a.1 = k) := by
        intro he
        have := hnot (k, w) (by simp)
        simp at this
        exact this he.symm
      rw [List.any_cons]
      have h1 : (decide (a.1 = k)) = false := decide_eq_false hk
      rw [h1, ih hrest]
      rfl

theorem dictInsert_fresh (acc : List (String × PyVal)) (k : String) (w : PyVal)
    (h : acc.any (fun kv => kv.1 = k) = false) :
    dictInsert acc k w = acc ++ [(k, w)] := by
  unfold dictInsert
  rw [if_neg (by rw [h]; simp)]

theorem parseVal_null (f : Nat) (rest : List Char) :
    parseVal false (f + 1) ('n' :: 'u' :: 'l' :: 'l' :: rest) = some (.none, rest) := rfl

theorem parseVal_true (f : Nat) (rest : List Char) :
    parseVal false (f + 1) ('t' :: 'r' :: 'u' :: 'e' :: rest) = some (.bool true, rest) := rfl

theorem parseVal_fls (f : Nat) (rest : List Char) :
    parseVal false (f + 1) ('f' :: 'a' :: 'l' :: 's' :: 'e' :: rest) =
      some (.bool false, rest) := rfl

theorem parseVal_digit (f : Nat) (c : Char) (l : List Char) (hc : c.isDigit = true) :
    parseVal false (f + 1) (c :: l) = parseNumberBody (c :: l) := by
  have h0 := (digit_char_props c hc).1
  have hbrace : ¬ c = '\x7b' := by rintro rfl; exact absurd hc (by decide)
  have hbrack : ¬ c = '[' := by rintro rfl; exact absurd hc (by decide)
  have hquote : ¬ c = '"' := by rintro rfl; exact absurd hc (by decide)
  have hminus : ¬ c = '-' := by rintro rfl; exact absurd hc (by decide)
  have ht : ¬ ((c :: l).take 4 = "true".data) := by
    rw [List.take_succ_cons, show "true".data = 't' :: "rue".data from rfl]
    intro h
    rw [List.cons.injEq] at h
    rcases h with ⟨rfl, -⟩
    exact absurd hc (by decide)
  have hfls : ¬ ((c :: l).take 5 = "false".data) := by
    rw [List.take_succ_cons, show "false".data = 'f' :: "alse".data from rfl]
    intro h
    rw [List.cons.injEq] at h
    rcases h with ⟨rfl, -⟩
    exact absurd hc (by decide)
  have hnull : ¬ ((c :: l).take 4 = "null".data) := by
    rw [List.take_succ_cons, show "null".data = 'n' :: "ull".data from rfl]
    intro h
    rw [List.cons.injEq] at h
    rcases h with ⟨rfl, -⟩
    exact absurd hc (by decide)
  rw [parseVal, skipWs_cons c l h0]
  simp only [if_neg hbrace, if_neg hbrack, if_neg hquote, if_neg hminus,
    if_neg ht, if_neg hfls, if_neg hnull, Bool.false_eq_true, false_and,
    if_false, if_neg (fun h => h : ¬ False)]

theorem parseVal_lbrack (f : Nat) (l : List Char) :
    parseVal false (f + 1) ('[' :: l) = parseElems false f (skipWs l) [] true := rfl

theorem parseVal_lbrace (f : Nat) (l : List Char) :
    parseVal false (f + 1) ('\x7b' :: l) = parseMembers false f (skipWs l) [] true := rfl

theorem parseElems_close (g : Nat) (rest : List Char) (acc : List PyVal) :
    parseElems false (g + 1) (']' :: rest) acc true = some (.list acc.reverse, rest) := rfl

theorem parseMembers_close (g : Nat) (rest : List Char) (acc : List (String × PyVal)) :
    parseMembers false (g + 1) ('\x7d' :: rest) acc true = some (.dict acc, rest) := rfl

theorem skipWs_printVal (v : PyVal) (l : List Char) :
    skipWs (printVal v ++ l) = printVal v ++ l := by
  rcases printVal_cons v with ⟨c, cs, hpv, hws, -, -⟩
  rw [hpv, List.cons_append, skipWs_cons _ _ hws]

theorem skipWs_printStr (s : String) (l : List Char) :
    skipWs (printStr s ++ l) = printStr s ++ l := by
  rw [printStr, List.cons_append, skipWs_cons _ _ (by decide)]

theorem numBoundary_printTail (tl : List PyVal) (rest : List Char) :
    numBoundary (printTail tl ++ ']' :: rest) = true := by
  cases tl with
  | nil => rfl
  | cons a tl => rfl

theorem numBoundary_printPairsTail (kvs : List (String × PyVal)) (rest : List Char) :
    numBoundary (printPairsTail kvs ++ '\x7d' :: rest) = true := by
  cases kvs with
  | nil => rfl
  | cons a kvs => rfl

theorem printStr_length (s : String) :
    (printStr s).length = (escapeChars s.data).length + 2 := by
  rw [printStr]
  simp

theorem parseVal_strlit (f : Nat) (s : String) (rest : List Char) :
    parseVal false (f + 1) (printStr s ++ rest) = some (.str s, rest) := by
  have hshape : printStr s ++ rest = '"' :: (escapeChars s.data ++ '"' :: rest) := by
    rw [printStr]
    simp
  rw [hshape]
  have hstep : parseVal false (f + 1) ('"' :: (escapeChars s.data ++ '"' :: rest)) =
      (do
        let (body, rem) ← parseStrBody '"' ((escapeChars s.data ++ '"' :: rest).length + 1)
          (escapeChars s.data ++ '"' :: rest)
        some (PyVal.str (String.mk body), rem)) := rfl
  rw [hstep, parseStrBody_rt s.data rest _ (by simp)]
  rfl

theorem parseVal_nat (f : Nat) (n : Nat) (rest : List Char)
    (hb : numBoundary rest = true) :
    parseVal false (f + 1) (natDigits n ++ rest) = some (.int (n : Int), rest) := by
  cases hh : natDigits n with
  | nil => exact absurd hh (natDigits_ne_nil n)
  | cons c cs =>
      have hc : c.isDigit = true := natDigits_isDigit n c (by rw [hh]; simp)
      rw [List.cons_append, parseVal_digit f c _ hc, ← List.cons_append, ← hh,
        parseNumberBody_nat n rest hb]

theorem parseVal_neg (f : Nat) (n : Nat) (rest : List Char)
    (hb : numBoundary rest = true) :
    parseVal false (f + 1) ('-' :: (natDigits n ++ rest)) =
      some (.int (-(n : Int)), rest) := by
  have hstep : parseVal false (f + 1) ('-' :: (natDigits n ++ rest)) =
      (do
        let (v, rem) ← parseNumberBody (natDigits n ++ rest)
        let negated ←
          match v with
          | .int m => some (PyVal.int (-m))
          | .float q => some (PyVal.float q.neg)
          | _ => Option.none
        some (negated, rem)) := by
    cases hh : natDigits n with
    | nil => exact absurd hh (natDigits_ne_nil n)
    | cons c cs => rfl
  rw [hstep, parseNumberBody_nat n rest hb]
  rfl

theorem parseElems_step (g : Nat) (c : Char) (l : List Char) (acc : List PyVal) (b : Bool)
    (hc : ¬(c = ']' ∧ b = true)) :
    parseElems false (g + 1) (c :: l) acc b =
      (do
        let (v, cs) ← parseVal false g (c :: l)
        match skipWs cs with
        | ',' :: cs => parseElems false g (skipWs cs) (v :: acc) false
        | ']' :: cs => some (.list (v :: acc).reverse, cs)
        | _ => Option.none) := by
  simp only [parseElems]
  rw [if_neg hc]

theorem parseMembers_step (g : Nat) (body : List Char) (acc : List (String × PyVal))
    (b : Bool) :
    parseMembers false (g + 1) ('"' :: body) acc b =
      (do
        let (key, cs) ← parseStrBody '"' (body.length + 1) body
        match skipWs cs with
        | ':' :: cs => do
            let (v, cs) ← parseVal false g cs
            let acc := dictInsert acc (String.mk key) v
            match skipWs cs with
            | ',' :: cs => parseMembers false g (skipWs cs) acc false
            | '\x7d' :: cs => some (.dict acc, cs)
            | _ => Option.none
        | _ => Option.none) := rfl


theorem parse_print :
    ∀ (N : Nat) (v : PyVal), (printVal v).length ≤ N → jsonWF v = true →
      ∀ (fuel : Nat) (rest : List Char), (printVal v).length + 1 ≤ fuel →
        numBoundary rest = true →
        parseVal false fuel (printVal v ++ rest) = some (v, rest) := by
  intro N
  induction N using Nat.strong_induction_on with
  | _ N IH =>
    intro v hlen hwf fuel rest hfuel hb
    have IHe : ∀ (e : PyVal), (printVal e).length < N → jsonWF e = true →
        ∀ (fu : Nat) (r : List Char), (printVal e).length + 1 ≤ fu →
          numBoundary r = true →
          parseVal false fu (printVal e ++ r) = some (e, r) :=
      fun e hlt hwfe fu r hf hbr =>
        IH (printVal e).length hlt e le_rfl hwfe fu r hf hbr
    have hElems : ∀ (tl : List PyVal), (∀ z ∈ tl, (printVal z).length < N) →
        jsonWFList tl = true →
        ∀ (e : PyVal), (printVal e).length < N → jsonWF e = true →
        ∀ (acc : List PyVal) (b : Bool) (fu : Nat) (rest2 : List Char),
        (printVal e).length + (printTail tl).length + 2 ≤ fu →
        parseElems false fu (printVal e ++ (printTail tl ++ ']' :: rest2)) acc b =
          some (.list (acc.reverse ++ e :: tl), rest2) := by
      intro tl
      induction tl with
      | nil =>
          intro _ _ e hlt hwfe acc b fu rest2 hfl
          cases fu with
          | zero => omega
          | succ g =>
              rcases printVal_cons e with ⟨c, cs, hpe, hws, hnq, -⟩
              rw [hpe, List.cons_append,
                parseElems_step g c _ acc b (fun h => hnq h.1),
                ← List.cons_append, ← hpe]
              rw [IHe e hlt hwfe g (printTail [] ++ ']' :: rest2)
                (by rw [hpe] at hfl ⊢; simp at hfl ⊢; omega)
                (numBoundary_printTail [] rest2)]
              simp only [Option.bind_eq_bind, Option.some_bind, printTail,
                List.nil_append]
              rw [skipWs_cons ']' rest2 (by decide)]
              simp [List.reverse_cons]
      | cons e2 tl2 ihtl =>
          intro hz hwfl e hlt hwfe acc b fu rest2 hfl
          cases fu with
          | zero => omega
          | succ g =>
              rcases printVal_cons e with ⟨c, cs, hpe, hws, hnq, -⟩
              rw [hpe, List.cons_append,
                parseElems_step g c _ acc b (fun h => hnq h.1),
                ← List.cons_append, ← hpe]
              have hlen2 : (printTail (e2 :: tl2)).length =
                  (printVal e2).length + (printTail tl2).length + 1 := by
                rw [printTail]
                simp only [List.length_cons, List.length_append]
              rw [IHe e hlt hwfe g (printTail (e2 :: tl2) ++ ']' :: rest2)
                (by omega) (numBoundary_printTail _ rest2)]
              simp only [Option.bind_eq_bind, Option.some_bind]
              rw [show printTail (e2 :: tl2) ++ ']' :: rest2 =
                ',' :: (printVal e2 ++ (printTail tl2 ++ ']' :: rest2)) from by
                  rw [printTail]; simp]
              rw [skipWs_cons ',' _ (by decide)]
              simp only []
              rw [skipWs_printVal e2 _]
              have he2 : (printVal e2).length < N := hz e2 (by simp)
              have hwfe2 : jsonWF e2 = true := by
                rw [jsonWFList, Bool.and_eq_true] at hwfl
                exact hwfl.1
              have hwftl2 : jsonWFList tl2 = true := by
                rw [jsonWFList, Bool.and_eq_true] at hwfl
                exact hwfl.2
              have hpos := printVal_length_pos e
              rw [ihtl (fun z hzm => hz z (by simp [hzm])) hwftl2 e2 he2 hwfe2
                (e :: acc) false g rest2 (by omega)]
              simp [List.reverse_cons]
    have hMembers : ∀ (kvs : List (String × PyVal)),
        (∀ z ∈ kvs, (printVal z.2).length < N) → jsonWFDict kvs = true →
        ∀ (k : String) (w : PyVal), (printVal w).length < N → jsonWF w = true →
        ∀ (acc : List (String × PyVal)) (b : Bool) (fu : Nat) (rest2 : List Char),
        keysFresh (acc ++ (k, w) :: kvs) = true →
        (printStr k).length + (printVal w).length + (printPairsTail kvs).length + 2 ≤ fu →
        parseMembers false fu
          (printStr k ++ (':' :: (printVal w ++ (printPairsTail kvs ++ '\x7d' :: rest2))))
          acc b =
          some (.dict (acc ++ (k, w) :: kvs), rest2) := by
      intro kvs
      induction kvs with
      | nil =>
          intro _ _ k w hlt hwfw acc b fu rest2 hfresh hfl
          cases fu with
          | zero => omega
          | succ g =>
              rw [show printStr k ++ (':' :: (printVal w ++ (printPairsTail [] ++ '\x7d' :: rest2))) =
                '"' :: (escapeChars k.data ++ '"' :: (':' :: (printVal w ++ ('\x7d' :: rest2)))) from by
                  rw [printStr, printPairsTail]; simp]
              rw [parseMembers_step g _ acc b,
                parseStrBody_rt k.data _ _ (by simp)]
              simp only [Option.bind_eq_bind, Option.some_bind]
              rw [skipWs_cons ':' _ (by decide)]
              simp only []
              rw [show printVal w ++ '\x7d' :: rest2 = printVal w ++ ('\x7d' :: rest2) from rfl]
              rw [IHe w hlt hwfw g ('\x7d' :: rest2) (by omega) (by rfl)]
              simp only [Option.bind_eq_bind, Option.some_bind]
              rw [show String.mk k.data = k from rfl,
                dictInsert_fresh acc k w (keysFresh_split k w [] acc hfresh)]
              rw [skipWs_cons '\x7d' rest2 (by decide)]
              simp
      | cons kv2 kvs2 ihm =>
          obtain ⟨k2, w2⟩ := kv2
          intro hz hwfd k w hlt hwfw acc b fu rest2 hfresh hfl
          cases fu with
          | zero => omega
          | succ g =>
              have hppt : (printPairsTail ((k2, w2) :: kvs2)).length =
                  (printStr k2).length + (printVal w2).length +
                    (printPairsTail kvs2).length + 2 := by
                rw [printPairsTail]
                simp only [List.length_cons, List.length_append, List.length_nil]
                omega
              rw [show printStr k ++ (':' :: (printVal w ++
                  (printPairsTail ((k2, w2) :: kvs2) ++ '\x7d' :: rest2))) =
                '"' :: (escapeChars k.data ++ '"' :: (':' :: (printVal w ++
                  (printPairsTail ((k2, w2) :: kvs2) ++ '\x7d' :: rest2)))) from by
                  rw [printStr]; simp]
              rw [parseMembers_step g _ acc b,
                parseStrBody_rt k.data _ _ (by simp)]
              simp only [Option.bind_eq_bind, Option.some_bind]
              rw [skipWs_cons ':' _ (by decide)]
              simp only []
              rw [IHe w hlt hwfw g (printPairsTail ((k2, w2) :: kvs2) ++ '\x7d' :: rest2)
                (by omega) (numBoundary_printPairsTail _ rest2)]
              simp only [Option.bind_eq_bind, Option.some_bind]
              rw [show String.mk k.data = k from rfl,
                dictInsert_fresh acc k w (keysFresh_split k w _ acc hfresh)]
              rw [show printPairsTail ((k2, w2) :: kvs2) ++ '\x7d' :: rest2 =
                ',' :: (printStr k2 ++ (':' :: (printVal w2 ++
                  (printPairsTail kvs2 ++ '\x7d' :: rest2)))) from by
                  rw [printPairsTail]; simp]
              rw [skipWs_cons ',' _ (by decide)]
              simp only []
              rw [skipWs_printStr k2 _]
              have hz2 : ∀ z ∈ kvs2, (printVal z.2).length < N :=
                fun z hzm => hz z (by simp [hzm])
              have hw2lt : (printVal w2).length < N := hz (k2, w2) (by simp)
              have hwfd2 : jsonWFDict kvs2 = true := by
                rw [jsonWFDict, Bool.and_eq_true] at hwfd
                exact hwfd.2
              have hwfw2 : jsonWF w2 = true := by
                rw [jsonWFDict, Bool.and_eq_true] at hwfd
                exact hwfd.1
              have hfresh2 : keysFresh ((acc ++ [(k, w)]) ++ (k2, w2) :: kvs2) = true := by
                rw [show (acc ++ [(k, w)]) ++ (k2, w2) :: kvs2 =
                  acc ++ (k, w) :: (k2, w2) :: kvs2 from by simp]
                exact hfresh
              have hsl : 1 ≤ (printStr k).length := by
                rw [printStr_length]
                omega
              have hwl := printVal_length_pos w
              rw [ihm hz2 hwfd2 k2 w2 hw2lt hwfw2 (acc ++ [(k, w)]) false g rest2
                hfresh2 (by omega)]
              simp
    cases v with
    | none =>
        cases fuel with
        | zero => omega
        | succ f =>
            exact parseVal_null f rest
    | bool b =>
        cases b with
        | true =>
            cases fuel with
            | zero => omega
            | succ f => exact parseVal_true f rest
        | false =>
            cases fuel with
            | zero => omega
            | succ f => exact parseVal_fls f rest
    | float q => exact absurd hwf (by rw [jsonWF]; simp)
    | int n =>
        by_cases hn : n < 0
        · rw [show printVal (.int n) = '-' :: natDigits n.natAbs from by
            rw [printVal, if_pos hn]] at hfuel ⊢
          cases fuel with
          | zero => omega
          | succ f =>
              rw [List.cons_append, parseVal_neg f n.natAbs rest hb]
              have : -((n.natAbs : Int)) = n := by omega
              rw [this]
        · rw [show printVal (.int n) = natDigits n.natAbs from by
            rw [printVal, if_neg hn]] at hfuel ⊢
          cases fuel with
          | zero => omega
          | succ f =>
              rw [parseVal_nat f n.natAbs rest hb]
              have : ((n.natAbs : Int)) = n := by omega
              rw [this]
    | str s =>
        cases fuel with
        | zero => omega
        | succ f => exact parseVal_strlit f s rest
    | list xs =>
        cases xs with
        | nil =>
            cases fuel with
            | zero => omega
            | succ f =>
                cases f with
                | zero => exact absurd hfuel (by decide)
                | succ g =>
                    rw [show printVal (.list []) ++ rest = '[' :: (']' :: rest) from rfl,
                      parseVal_lbrack (g + 1) _, skipWs_cons ']' rest (by decide),
                      parseElems_close g rest []]
                    rfl
        | cons x xs =>
            cases fuel with
            | zero => omega
            | succ f =>
                have hlenv : (printVal (.list (x :: xs))).length =
                    (printVal x).length + (printTail xs).length + 2 := by
                  rw [printVal]
                  simp only [List.length_cons, List.length_append, List.length_nil]
                rw [show printVal (.list (x :: xs)) ++ rest =
                  '[' :: (printVal x ++ (printTail xs ++ ']' :: rest)) from by
                    rw [printVal]; simp]
                rw [parseVal_lbrack f _, skipWs_printVal x _]
                have hwfl : jsonWFList (x :: xs) = true := by
                  rw [jsonWF] at hwf
                  exact hwf
                have hwfx : jsonWF x = true := by
                  rw [jsonWFList, Bool.and_eq_true] at hwfl
                  exact hwfl.1
                have hxlt : (printVal x).length < N := by omega
                have hzlt : ∀ z ∈ xs, (printVal z).length < N := by
                  intro z hzm
                  have := printTail_mem_le xs z hzm
                  omega
                have hwfxs : jsonWFList xs = true := by
                  rw [jsonWFList, Bool.and_eq_true] at hwfl
                  exact hwfl.2
                rw [hElems xs hzlt hwfxs x hxlt hwfx [] true f rest (by omega)]
                simp
    | dict kvs =>
        cases kvs with
        | nil =>
            cases fuel with
            | zero => omega
            | succ f =>
                cases f with
                | zero => exact absurd hfuel (by decide)
                | succ g =>
                    rw [show printVal (.dict []) ++ rest = '\x7b' :: ('\x7d' :: rest) from rfl,
                      parseVal_lbrace (g + 1) _, skipWs_cons '\x7d' rest (by decide),
                      parseMembers_close g rest []]
        | cons kv kvs2 =>
            obtain ⟨k, w⟩ := kv
            cases fuel with
            | zero => omega
            | succ f =>
                have hlenv : (printVal (.dict ((k, w) :: kvs2))).length =
                    (printStr k).length + (printVal w).length +
                      (printPairsTail kvs2).length + 3 := by
                  show ('\x7b' :: (printStr k ++ ':' :: printVal w ++
                      printPairsTail kvs2 ++ ['\x7d'])).length = _
                  simp only [List.length_cons, List.length_append, List.length_nil]
                  omega
                rw [show printVal (.dict ((k, w) :: kvs2)) ++ rest =
                  '\x7b' :: (printStr k ++ (':' :: (printVal w ++
                    (printPairsTail kvs2 ++ '\x7d' :: rest)))) from by
                    rw [printVal]; simp]
                rw [parseVal_lbrace f _, skipWs_printStr k _]
                rw [jsonWF, Bool.and_eq_true, Bool.and_eq_true] at hwf
                obtain ⟨⟨hfresh, hstrok⟩, hwfd⟩ := hwf
                have hwlt : (printVal w).length < N := by
                  have h1 : 1 ≤ (printStr k).length := by
                    rw [printStr_length]; omega
                  omega
                have hwfw : jsonWF w = true := by
                  rw [jsonWFDict, Bool.and_eq_true] at hwfd
                  exact hwfd.1
                have hwfd2 : jsonWFDict kvs2 = true := by
                  rw [jsonWFDict, Bool.and_eq_true] at hwfd
                  exact hwfd.2
                have hzlt : ∀ z ∈ kvs2, (printVal z.2).length < N := by
                  intro z hzm
                  have := printPairsTail_mem_le kvs2 z hzm
                  have h1 : 1 ≤ (printStr k).length := by
                    rw [printStr_length]; omega
                  omega
                rw [hMembers kvs2 hzlt hwfd2 k w hwlt hwfw [] true f rest
                  (by simpa using hfresh) (by omega)]
                rfl

theorem jsonLoads_jsonDumps (v : PyVal) (hwf : jsonWF v = true) :
    jsonLoads (jsonDumps v) = .ok v := by
  have hp := parse_print (printVal v).length v le_rfl hwf ((printVal v).length + 1) []
    (by omega) rfl
  rw [List.append_nil] at hp
  unfold jsonLoads jsonDumps
  rw [show (String.mk (printVal v)).data = printVal v from rfl,
    show (String.mk (printVal v)).length = (printVal v).length from rfl, hp]
  rfl

theorem natDigitsAux_lt128 :
    ∀ (fuel n : Nat), ∀ c ∈ natDigitsAux fuel n, c.toNat < 128 := by
  intro fuel
  induction fuel with
  | zero => intro n c hc; simp [natDigitsAux] at hc
  | succ f ih =>
      intro n c hc
      rw [natDigitsAux] at hc
      by_cases h : n < 10
      · rw [if_pos h] at hc
        simp at hc
        rw [hc, digitChar_toNat n h]
        omega
      · rw [if_neg h] at hc
        rcases List.mem_append.mp hc with hc | hc
        · exact ih (n / 10) c hc
        · simp at hc
          rw [hc, digitChar_toNat (n % 10) (by omega)]
          omega

theorem natDigits_lt128 (n : Nat) : ∀ c ∈ natDigits n, c.toNat < 128 :=
  natDigitsAux_lt128 (n + 1) n

theorem escapeChars_ascii : ∀ (l : List Char), (∀ c ∈ l, c.toNat < 128) →
    ∀ c ∈ escapeChars l, c.toNat < 128 := by
  intro l
  induction l with
  | nil => intro _ c hc; simp [escapeChars] at hc
  | cons a tl ih =>
      intro h c hc
      rw [escapeChars] at hc
      by_cases ha : a = '"' ∨ a = '\\'
      · rw [if_pos ha] at hc
        rcases List.mem_cons.mp hc with rfl | hc
        · decide
        · rcases List.mem_cons.mp hc with rfl | hc
          · exact h c (by simp)
          · exact ih (fun d hdm => h d (by simp [hdm])) c hc
      · rw [if_neg ha] at hc
        rcases List.mem_cons.mp hc with rfl | hc
        · exact h c (by simp)
        · exact ih (fun d hdm => h d (by simp [hdm])) c hc

theorem printStr_ascii (s : String) (hs : strOk s = true) :
    ∀ c ∈ printStr s, c.toNat < 128 := by
  have hd : ∀ c ∈ s.data, c.toNat < 128 := by
    rw [strOk, List.all_eq_true] at hs
    intro c hc
    have := hs c hc
    simp at this
    exact this.2
  intro c hc
  rw [printStr] at hc
  rcases List.mem_cons.mp hc with rfl | hc
  · decide
  · rcases List.mem_append.mp hc with hc | hc
    · exact escapeChars_ascii s.data hd c hc
    · simp at hc
      rw [hc]
      decide

theorem printVal_ascii :
    ∀ (N : Nat) (v : PyVal), (printVal v).length ≤ N → jsonWF v = true →
      ∀ c ∈ printVal v, c.toNat < 128 := by
  intro N
  induction N using Nat.strong_induction_on with
  | _ N IH =>
    intro v hlen hwf
    have IHe : ∀ (e : PyVal), (printVal e).length < N → jsonWF e = true →
        ∀ c ∈ printVal e, c.toNat < 128 :=
      fun e hlt hwfe => IH (printVal e).length hlt e le_rfl hwfe
    have htail : ∀ (tl : List PyVal), (∀ z ∈ tl, (printVal z).length < N) →
        jsonWFList tl = true → ∀ c ∈ printTail tl, c.toNat < 128 := by
      intro tl
      induction tl with
      | nil => intro _ _ c hc; simp [printTail] at hc
      | cons a tl ihtail =>
          intro hz hwfl c hc
          rw [printTail] at hc
          rw [jsonWFList, Bool.and_eq_true] at hwfl
          rcases List.mem_cons.mp hc with rfl | hc
          · decide
          · rcases List.mem_append.mp hc with hc | hc
            · exact IHe a (hz a (by simp)) hwfl.1 c hc
            · exact ihtail (fun z hzm => hz z (by simp [hzm])) hwfl.2 c hc
    have hptail : ∀ (kvs : List (String × PyVal)),
        (∀ z ∈ kvs, (printVal z.2).length < N) →
        (∀ z ∈ kvs, strOk z.1 = true) → jsonWFDict kvs = true →
        ∀ c ∈ printPairsTail kvs, c.toNat < 128 := by
      intro kvs
      induction kvs with
      | nil => intro _ _ _ c hc; simp [printPairsTail] at hc
      | cons a kvs ihp =>
          intro hz hok hwfd c hc
          rw [printPairsTail] at hc
          rw [jsonWFDict, Bool.and_eq_true] at hwfd
          rcases List.mem_cons.mp hc with rfl | hc
          · decide
          · rcases List.mem_append.mp hc with hc | hc
            · rcases List.mem_append.mp hc with hc | hc
              · exact printStr_ascii a.1 (hok a (by simp)) c hc
              · rcases List.mem_cons.mp hc with rfl | hc
                · decide
                · exact IHe a.2 (hz a (by simp)) hwfd.1 c hc
            · exact ihp (fun z hzm => hz z (by simp [hzm]))
                (fun z hzm => hok z (by simp [hzm])) hwfd.2 c hc

    cases v with
    | none =>
        intro c hc
        simp [printVal] at hc
        rcases hc with rfl | rfl | rfl | rfl <;> decide
    | bool b =>
        cases b with
        | true =>
            intro c hc
            simp [printVal] at hc
            rcases hc with rfl | rfl | rfl | rfl <;> decide
        | false =>
            intro c hc
            simp [printVal] at hc
            rcases hc with rfl | rfl | rfl | rfl | rfl <;> decide
    | float q => exact absurd hwf (by rw [jsonWF]; simp)
    | int n =>
        intro c hc
        rw [printVal] at hc
        by_cases hn : n < 0
        · rw [if_pos hn] at hc
          rcases List.mem_cons.mp hc with rfl | hc
          · decide
          · exact natDigits_lt128 n.natAbs c hc
        · rw [if_neg hn] at hc
          exact natDigits_lt128 n.natAbs c hc
    | str s =>
        rw [jsonWF] at hwf
        exact printStr_ascii s hwf
    | list xs =>
        cases xs with
        | nil =>
            intro c hc
            simp [printVal] at hc
            rcases hc with rfl | rfl <;> decide
        | cons x xs =>
            rw [jsonWF] at hwf
            rw [jsonWFList, Bool.and_eq_true] at hwf
            have hlenv : (printVal (.list (x :: xs))).length =
                (printVal x).length + (printTail xs).length + 2 := by
              show ('[' :: (printVal x ++ printTail xs ++ [']'])).length = _
              simp only [List.length_cons, List.length_append, List.length_nil]
            intro c hc
            rw [show printVal (.list (x :: xs)) =
              '[' :: (printVal x ++ printTail xs ++ [']']) from rfl] at hc
            rcases List.mem_cons.mp hc with rfl | hc
            · decide
            · rcases List.mem_append.mp hc with hc | hc
              · rcases List.mem_append.mp hc with hc | hc
                · exact IHe x (by omega) hwf.1 c hc
                · refine htail xs ?_ hwf.2 c hc
                  intro z hzm
                  have := printTail_mem_le xs z hzm
                  omega
              · simp at hc
                rw [hc]
                decide
    | dict kvs =>
        cases kvs with
        | nil =>
            intro c hc
            simp [printVal] at hc
            rcases hc with rfl | rfl <;> decide
        | cons kv kvs2 =>
            obtain ⟨k, w⟩ := kv
            rw [jsonWF, Bool.and_eq_true, Bool.and_eq_true] at hwf
            obtain ⟨⟨hfresh, hstrok⟩, hwfd⟩ := hwf
            rw [jsonWFDict, Bool.and_eq_true] at hwfd
            rw [List.all_eq_true] at hstrok
            have hlenv : (printVal (.dict ((k, w) :: kvs2))).length =
                (printStr k).length + (printVal w).length +
                  (printPairsTail kvs2).length + 3 := by
              show ('\x7b' :: (printStr k ++ ':' :: printVal w ++
                  printPairsTail kvs2 ++ ['\x7d'])).length = _
              simp only [List.length_cons, List.length_append, List.length_nil]
              omega
            have hs1 : 1 ≤ (printStr k).length := by
              rw [printStr_length]
              omega
            intro c hc
            rw [show printVal (.dict ((k, w) :: kvs2)) =
              '\x7b' :: (printStr k ++ ':' :: printVal w ++
                printPairsTail kvs2 ++ ['\x7d']) from rfl] at hc
            rcases List.mem_cons.mp hc with rfl | hc
            · decide
            · rcases List.mem_append.mp hc with hc | hc
              · rcases List.mem_append.mp hc with hc | hc
                · rcases List.mem_append.mp hc with hc | hc
                  · refine printStr_ascii k ?_ c hc
                    have := hstrok (k, w) (by simp)
                    simpa using this
                  · rcases List.mem_cons.mp hc with rfl | hc
                    · decide
                    · exact IHe w (by omega) hwfd.1 c hc
                · refine hptail kvs2 ?_ ?_ hwfd.2 c hc
                  · intro z hzm
                    have := printPairsTail_mem_le kvs2 z hzm
                    omega
                  · intro z hzm
                    have := hstrok z (by simp [hzm])
                    simpa using this
              · simp at hc
                rw [hc]
                decide

theorem b64Index_b64Char : ∀ n < 64, b64Index? (b64Char n) = some n := by decide

theorem b64Char_high (n : Nat) (h : 64 ≤ n) : b64Char n = 'A' := by
  unfold b64Char
  exact List.getD_eq_default _ _ (by
    show b64Alphabet.length ≤ n
    simpa using h)

theorem b64Kept_b64Char (n : Nat) : b64Kept (b64Char n) = true := by
  by_cases h : n < 64
  · rw [b64Kept, b64Index_b64Char n h]
    rfl
  · rw [b64Char_high n (by omega)]
    decide

theorem b64Char_ne_pad (n : Nat) : b64Char n ≠ '=' := by
  by_cases h : n < 64
  · intro he
    have h1 := b64Index_b64Char n h
    rw [he] at h1
    have h2 : b64Index? '=' = Option.none := by decide
    rw [h2] at h1
    exact Option.noConfusion h1
  · rw [b64Char_high n (by omega)]
    decide

theorem b64encodeCore_kept : ∀ (bs : List Nat), ∀ c ∈ b64encodeCore bs, b64Kept c = true := by
  intro bs
  induction bs using b64encodeCore.induct with
  | case1 => intro c hc; simp [b64encodeCore] at hc
  | case2 a =>
      intro c hc
      rw [b64encodeCore] at hc
      simp at hc
      rcases hc with rfl | rfl | rfl
      · exact b64Kept_b64Char _
      · exact b64Kept_b64Char _
      · decide
  | case3 a b =>
      intro c hc
      rw [b64encodeCore] at hc
      simp at hc
      rcases hc with rfl | rfl | rfl | rfl
      · exact b64Kept_b64Char _
      · exact b64Kept_b64Char _
      · exact b64Kept_b64Char _
      · decide
  | case4 a b c rest ih =>
      intro d hd
      rw [b64encodeCore] at hd
      rcases List.mem_cons.mp hd with rfl | hd
      · exact b64Kept_b64Char _
      · rcases List.mem_cons.mp hd with rfl | hd
        · exact b64Kept_b64Char _
        · rcases List.mem_cons.mp hd with rfl | hd
          · exact b64Kept_b64Char _
          · rcases List.mem_cons.mp hd with rfl | hd
            · exact b64Kept_b64Char _
            · exact ih d hd

theorem b64encodeCore_len4 : ∀ (bs : List Nat), (b64encodeCore bs).length % 4 = 0 := by
  intro bs
  induction bs using b64encodeCore.induct with
  | case1 => rfl
  | case2 a => rw [b64encodeCore]; simp
  | case3 a b => rw [b64encodeCore]; simp
  | case4 a b c rest ih =>
      rw [b64encodeCore]
      simp only [List.length_cons]
      omega

theorem b64decodeCore_pad2 (a b : Char) :
    b64decodeCore [a, b, '=', '='] = (do
      let x ← b64Index? a
      let y ← b64Index? b
      some [x * 4 + y / 16]) := rfl

theorem b64decodeCore_encodeCore : ∀ (bs : List Nat), (∀ x ∈ bs, x < 256) →
    b64decodeCore (b64encodeCore bs) = some bs := by
  intro bs
  induction bs using b64encodeCore.induct with
  | case1 => intro _; rfl
  | case2 a =>
      intro h
      have ha : a < 256 := h a (by simp)
      rw [b64encodeCore, b64decodeCore_pad2,
        b64Index_b64Char (a / 4) (by omega),
        b64Index_b64Char (a % 4 * 16) (by omega)]
      simp only [Option.bind_eq_bind, Option.some_bind]
      have harith : a / 4 * 4 + a % 4 * 16 / 16 = a := by omega
      rw [harith]
  | case3 a b =>
      intro h
      have ha : a < 256 := h a (by simp)
      have hb : b < 256 := h b (by simp)
      rw [b64encodeCore, b64decodeCore.eq_def]
      split
      · rename_i heq
        exact List.noConfusion heq
      · rename_i heq
        injection heq with h1 heq
        injection heq with h2 heq
        injection heq with h3 heq
        exact absurd h3 (b64Char_ne_pad _)
      · rename_i hne heq
        injection heq with h1 heq
        injection heq with h2 heq
        injection heq with h3 heq
        subst h1
        subst h2
        subst h3
        rw [b64Index_b64Char (a / 4) (by omega),
          b64Index_b64Char (a % 4 * 16 + b / 16) (by omega),
          b64Index_b64Char (b % 16 * 4) (by omega)]
        simp only [Option.bind_eq_bind, Option.some_bind]
        have e1 : a / 4 * 4 + (a % 4 * 16 + b / 16) / 16 = a := by omega
        have e2 : (a % 4 * 16 + b / 16) % 16 * 16 + b % 16 * 4 / 4 = b := by omega
        rw [e1, e2]
      · rename_i hne1 hne2 heq
        injection heq with h1 heq
        injection heq with h2 heq
        injection heq with h3 heq
        injection heq with h4 heq
        exact (hne2 h4.symm heq.symm).elim
      · rename_i hne1 hne2 hne3 hne4
        exact (hne3 (b64Char (a / 4)) (b64Char (a % 4 * 16 + b / 16))
          (b64Char (b % 16 * 4)) rfl).elim
  | case4 a b c rest ih =>
      intro h
      have ha : a < 256 := h a (by simp)
      have hb : b < 256 := h b (by simp)
      have hc : c < 256 := h c (by simp)
      rw [b64encodeCore, b64decodeCore.eq_def]
      split
      · rename_i heq
        exact List.noConfusion heq
      · rename_i heq
        injection heq with h1 heq
        injection heq with h2 heq
        injection heq with h3 heq
        exact absurd h3 (b64Char_ne_pad _)
      · rename_i hne heq
        injection heq with h1 heq
        injection heq with h2 heq
        injection heq with h3 heq
        injection heq with h4 heq
        exact absurd h4 (b64Char_ne_pad _)
      · rename_i hne1 hne2 heq
        injection heq with h1 heq
        injection heq with h2 heq
        injection heq with h3 heq
        injection heq with h4 heq
        subst h1
        subst h2
        subst h3
        subst h4
        subst heq
        rw [b64Index_b64Char (a / 4) (by omega),
          b64Index_b64Char (a % 4 * 16 + b / 16) (by omega),
          b64Index_b64Char (b % 16 * 4 + c / 64) (by omega),
          b64Index_b64Char (c % 64) (by omega),
          ih (fun x hx => h x (by simp [hx]))]
        simp only [Option.bind_eq_bind, Option.some_bind]
        have e1 : a / 4 * 4 + (a % 4 * 16 + b / 16) / 16 = a := by omega
        have e2 : (a % 4 * 16 + b / 16) % 16 * 16 + (b % 16 * 4 + c / 64) / 4 = b := by
          omega
        have e3 : (b % 16 * 4 + c / 64) % 4 * 64 + c % 64 = c := by omega
        rw [e1, e2, e3]
      · rename_i hne1 hne2 hne3 hne4
        exact (hne4 (b64Char (a / 4)) (b64Char (a % 4 * 16 + b / 16))
          (b64Char (b % 16 * 4 + c / 64)) (b64Char (c % 64)) (b64encodeCore rest) rfl).elim

theorem b64decode_b64encode (bs : List Nat) (h : ∀ x ∈ bs, x < 256) :
    b64decode (b64encode bs) = .ok bs := by
  simp only [b64decode, b64encode]
  rw [List.filter_eq_self.mpr (b64encodeCore_kept bs)]
  rw [if_neg (by rw [b64encodeCore_len4 bs]; simp)]
  rw [b64decodeCore_encodeCore bs h]

theorem asciiDecode_strToBytes (s : String) (hs : ∀ c ∈ s.data, c.toNat < 128) :
    asciiDecode (strToBytes s) = .ok s := by
  simp only [asciiDecode, strToBytes]
  have hall : (s.data.map Char.toNat).all (fun b => b < 128) = true := by
    rw [List.all_eq_true]
    intro b hb
    rw [List.mem_map] at hb
    obtain ⟨c, hc, rfl⟩ := hb
    simpa using hs c hc
  rw [if_pos (by rw [hall])]
  rw [List.map_map]
  have hid : (Char.ofNat ∘ Char.toNat) = id := funext (fun c => Char.ofNat_toNat c)
  rw [hid, List.map_id]

theorem stripQuotesOnce_b64 (bs : List Nat) :
    stripQuotesOnce (b64encode bs) = b64encode bs := by
  unfold stripQuotesOnce
  rw [show (b64encode bs).data = b64encodeCore bs from rfl]
  cases hb : b64encodeCore bs with
  | nil => rfl
  | cons c cs =>
      have hc : b64Kept c = true := b64encodeCore_kept bs c (by rw [hb]; simp)
      have hne : ¬ (c = '"') := by
        rintro rfl
        exact absurd hc (by decide)
      show (if (c = '"' ∧ (c :: cs).getLast? = some '"')
          then String.mk ((List.drop 1 (c :: cs)).dropLast)
          else b64encode bs) = b64encode bs
      rw [if_neg (fun hcon => hne hcon.1)]

theorem stripQuotesOnce_quoted (b : String) :
    stripQuotesOnce ("\"" ++ b ++ "\"") = b := by
  have hdata : ("\"" ++ b ++ "\"").data = '"' :: (b.data ++ ['"']) := by
    rw [String.data_append, String.data_append]
    rfl
  have hlast : ('"' :: (b.data ++ ['"'])).getLast? = some '"' := by
    rw [show ('"' :: (b.data ++ ['"'])) = ('"' :: b.data) ++ ['"'] from by simp]
    exact List.getLast?_concat _
  unfold stripQuotesOnce
  rw [hdata]
  show (if ('"' = '"' ∧ ('"' :: (b.data ++ ['"'])).getLast? = some '"')
      then String.mk ((('"' :: (b.data ++ ['"'])).drop 1).dropLast)
      else ("\"" ++ b ++ "\"")) = b
  rw [if_pos ⟨rfl, hlast⟩]
  rw [List.drop_one, List.tail_cons, List.dropLast_concat]

/-- Claim C8: for every well-formed JSON value (no floats, printable-ASCII
strings, distinct dict keys) and every lossless byte-preserving
deflate/inflate pair, `decode_compressed_data` applied to the encoded
payload (compact JSON, UTF-8 bytes, raw deflate, base64 text, optionally
wrapped in literal quotes) returns exactly the original value:
`json.loads(zlib.decompress(base64.b64decode(data), -MAX_WBITS).decode("utf-8"))`
inverts the encoding pipeline. -/
theorem c8_thm (deflate : List Nat → List Nat)
    (inflate : List Nat → Except PyErr (List Nat))
    (hcodec : ∀ bs, inflate (deflate bs) = .ok bs)
    (hbytes : ∀ bs, (∀ x ∈ bs, x < 256) → ∀ x ∈ deflate bs, x < 256)
    (v : PyVal) (hwf : jsonWF v = true) (quoted : Bool) :
    decode_compressed_data inflate (.str (encodePayload deflate quoted v)) = .ok v := by
  have hascii : ∀ c ∈ (jsonDumps v).data, c.toNat < 128 := by
    intro c hc
    rw [show (jsonDumps v).data = printVal v from rfl] at hc
    exact printVal_ascii (printVal v).length v le_rfl hwf c hc
  have hin : ∀ x ∈ strToBytes (jsonDumps v), x < 256 := by
    intro x hx
    rw [strToBytes, List.mem_map] at hx
    obtain ⟨c, hc, rfl⟩ := hx
    have := hascii c hc
    omega
  have hB : ∀ x ∈ deflate (strToBytes (jsonDumps v)), x < 256 := hbytes _ hin
  have hstrip : stripQuotesOnce (encodePayload deflate quoted v) =
      b64encode (deflate (strToBytes (jsonDumps v))) := by
    cases quoted with
    | true =>
        rw [show encodePayload deflate true v =
          "\"" ++ b64encode (deflate (strToBytes (jsonDumps v))) ++ "\"" from by
            simp [encodePayload]]
        exact stripQuotesOnce_quoted _
    | false =>
        rw [show encodePayload deflate false v =
          b64encode (deflate (strToBytes (jsonDumps v))) from by
            simp [encodePayload]]
        exact stripQuotesOnce_b64 _
  simp only [decode_compressed_data]
  rw [hstrip, b64decode_b64encode _ hB]
  simp only [Bind.bind, Except.bind, hcodec, asciiDecode_strToBytes _ hascii,
    jsonLoads_jsonDumps v hwf]

/-- Witness for C8: a concrete quoted payload for the dict `\x7b"a": 1\x7d`
with the identity codec decodes back to the dict. -/
theorem c8_witness :
    decode_compressed_data (fun bs => Except.ok bs)
      (.str (encodePayload (fun bs => bs) true (.dict [("a", .int 1)]))) =
      .ok (.dict [("a", .int 1)]) :=
  c8_thm (fun bs => bs) (fun bs => Except.ok bs) (fun _ => rfl)
    (fun _ h => h) (.dict [("a", .int 1)]) (by decide) true

end F1
